import Mathlib

/-!
Verification of the cudf Parquet orchestration layer
(`src/python/cudf/cudf/io/parquet.py`).

The Python module is shallowly embedded: dataframes become a `DataFrame`
structure over a concrete cell-value type `PVal`, the partitioning helper
`_get_partition_groups`, the dataset writer `write_to_dataset`, and the
dispatchers `to_parquet` / `read_parquet` become executable Lean functions,
with Python exceptions modelled by `Except PqError`.  External collaborators
(the libcudf codec `libparquet`, the pyarrow fallback, the filesystem) are
either taken as function parameters or, where a claim is decided by the codec
itself, modelled from the specification (each such definition says so in its
doc comment).
-/

namespace CudfParquet

/-- Logical dtype of a column.  `category` is the dictionary/categorical dtype
that the accelerated writer path rejects. -/
inductive Dtype where
  | int64
  | utf8
  | category
deriving DecidableEq, Repr

/-- A scalar cell value: null, an integer, or a string.  This is the model of
the Python values stored in dataframe cells. -/
inductive PVal where
  | nullV
  | intV (i : Int)
  | strV (s : String)
deriving DecidableEq, Repr

/-- Total order on cell values used to model sorting: nulls first, then all
integers (numerically), then all strings (lexicographically by character
list). -/
def PVal.le : PVal → PVal → Prop
  | .nullV, _ => True
  | .intV _, .nullV => False
  | .intV i, .intV j => i ≤ j
  | .intV _, .strV _ => True
  | .strV _, .nullV => False
  | .strV _, .intV _ => False
  | .strV s, .strV t => s.data ≤ t.data

instance PVal.decLE : DecidableRel PVal.le := fun a b =>
  match a, b with
  | .nullV, _ => .isTrue trivial
  | .intV _, .nullV => .isFalse (fun h => h)
  | .intV i, .intV j => inferInstanceAs (Decidable (i ≤ j))
  | .intV _, .strV _ => .isTrue trivial
  | .strV _, .nullV => .isFalse (fun h => h)
  | .strV _, .intV _ => .isFalse (fun h => h)
  | .strV s, .strV t => inferInstanceAs (Decidable (s.data ≤ t.data))

instance : LinearOrder PVal where
  le := PVal.le
  le_refl := by
    intro a; cases a <;> simp [PVal.le]
  le_trans := by
    intro a b c hab hbc
    cases a <;> cases b <;> cases c <;>
      simp only [PVal.le] at hab hbc ⊢ <;>
      first
        | trivial
        | exact hab.elim
        | exact hbc.elim
        | exact le_trans hab hbc
  le_antisymm := by
    intro a b hab hba
    cases a <;> cases b <;> simp only [PVal.le] at hab hba ⊢ <;>
      first
        | rfl
        | exact hab.elim
        | exact hba.elim
        | exact congrArg PVal.intV (le_antisymm hab hba)
        | exact congrArg PVal.strV (String.ext (le_antisymm hab hba))
  le_total := by
    intro a b
    cases a <;> cases b <;> simp only [PVal.le] <;>
      first
        | exact Or.inl trivial
        | exact Or.inr trivial
        | exact le_total _ _
  decidableLE := PVal.decLE

/-- Model of Python `str(value)` as used by
`"{colname}={value}".format(colname=name, value=val)`. -/
def PVal.text : PVal → String
  | .nullV => "None"
  | .intV i => toString i
  | .strV s => s

/-- A dataframe row: one cell value per column, in column order. -/
abbrev Row := List PVal

/-- A partition key: the tuple of a row's values at the partition columns. -/
abbrev Key := List PVal

/-- The model of a cudf `DataFrame`: named, typed columns and a list of rows
(each row holding one value per column, in column order).  The integer index
of the Python object is not carried: no claim depends on it, and
`write_to_dataset` is exercised with `preserve_index=False` semantics. -/
structure DataFrame where
  cols : List String
  dtypes : List Dtype
  rows : List Row
deriving DecidableEq, Repr

/-- Partition key of one row: the row's values at the partition columns, in the
order the partition columns are given.  This is the row-wise model of the
column projection `df[partition_cols]`. -/
def projKey (cols pcols : List String) (r : Row) : Key :=
  pcols.map (fun c => r.getD (List.indexOf c cols) PVal.nullV)

/-- Row comparison by key, the relation `sort_values` sorts with. -/
def keyLe {α K : Type} [LinearOrder K] (key : α → K) : α → α → Prop :=
  fun a b => key a ≤ key b

instance {α K : Type} [LinearOrder K] (key : α → K) : DecidableRel (keyLe key) :=
  fun a b => inferInstanceAs (Decidable (key a ≤ key b))

/-- Model of `df.sort_values(partition_cols)` (`parquet.py` line 19): a stable
sort of the rows by partition key.  The subsequent `reset_index(drop=True)`
(lines 20-21) only renumbers the integer index, which this model does not
carry. -/
def sort_values (df : DataFrame) (pcols : List String) : DataFrame :=
  { df with rows := List.insertionSort (keyLe (projKey df.cols pcols)) df.rows }

/-- Helper for `drop_duplicates`: scan the list left to right, keeping each
element the first time it is seen. -/
def ddScan {α : Type} [DecidableEq α] (seen : List α) : List α → List α
  | [] => []
  | a :: l => if a ∈ seen then ddScan seen l else a :: ddScan (a :: seen) l

/-- Model of pandas/cudf `drop_duplicates()` with the default `keep="first"`:
distinct elements in order of first occurrence (`parquet.py` line 22). -/
def drop_duplicates {α : Type} [DecidableEq α] (l : List α) : List α :=
  ddScan [] l

/-- Model of `searchsorted(ks, d, side="left")` on a sorted key column `ks`:
the leftmost insertion point of `d`, i.e. the number of keys strictly below
`d` (`parquet.py` line 23). -/
def searchsorted_left (ks : List Key) (d : Key) : Nat :=
  ks.countP (fun k => decide (k < d))

/-- Slices `df.iloc[splits[i] : splits[i+1]]` for consecutive entries of the
offset list (`parquet.py` lines 25-28). -/
def slicesBy {α : Type} (offs : List Nat) (l : List α) : List (List α) :=
  (List.range (offs.length - 1)).map
    (fun i => (l.drop (offs.getD i 0)).take (offs.getD (i + 1) 0 - offs.getD i 0))

/-- The partition-key column of the sorted frame: the model of
`df[partition_cols]` after `sort_values`. -/
def sortedKeys (df : DataFrame) (pcols : List String) : List Key :=
  (sort_values df pcols).rows.map (projKey df.cols pcols)

/-- Model of `divisions = df[partition_cols].drop_duplicates()`
(`parquet.py` line 22), computed on the sorted frame. -/
def partitionDivisions (df : DataFrame) (pcols : List String) : List Key :=
  drop_duplicates (sortedKeys df pcols)

/-- Model of `splits = df[partition_cols].searchsorted(divisions, side="left")`
followed by `splits.tolist() + [len(df[partition_cols])]`
(`parquet.py` lines 23-24). -/
def partitionSplits (df : DataFrame) (pcols : List String) : List Nat :=
  (partitionDivisions df pcols).map (searchsorted_left (sortedKeys df pcols)) ++
    [(sortedKeys df pcols).length]

/-- Model of `_get_partition_groups(df, partition_cols, preserve_index)`
(`parquet.py` lines 14-28): sort by the partition columns, locate the first
occurrence of each distinct partition key with `searchsorted`, and return the
resulting contiguous `iloc` slices as sub-dataframes.  `preserve_index` only
controls `reset_index`, which the model does not carry. -/
def _get_partition_groups (df : DataFrame) (pcols : List String)
    (preserve_index : Bool := false) : List DataFrame :=
  (slicesBy (partitionSplits df pcols) (sort_values df pcols).rows).map
    (fun rs => { df with rows := rs })

/-- The generic form of `partitionSplits`: first-occurrence offsets of the
distinct values of a sorted key column, with the total length appended. -/
def splitsOf {K : Type} [DecidableEq K] [LinearOrder K] (ks : List K) : List Nat :=
  (drop_duplicates ks).map (fun d => ks.countP (fun k => decide (k < d))) ++ [ks.length]

/-- Error taxonomy (spec section 7).  `NoDataColumns` and
`UnsupportedCategoricalType` model the two `ValueError`s raised in
`parquet.py` (lines 89 and 232-235); `CompressionNotSupported` models the
`ValueError` of line 182; `SchemaMismatch` belongs to the metadata merger. -/
inductive PqError where
  | NoDataColumns
  | UnsupportedCategoricalType
  | SchemaMismatch
  | CompressionNotSupported
deriving DecidableEq, Repr

instance {ε α : Type} [DecidableEq ε] [DecidableEq α] : DecidableEq (Except ε α) := fun a b =>
  match a, b with
  | .error x, .error y =>
    if h : x = y then .isTrue (by rw [h]) else .isFalse (fun hc => h (Except.error.inj hc))
  | .error _, .ok _ => .isFalse (fun hc => Except.noConfusion hc)
  | .ok _, .error _ => .isFalse (fun hc => Except.noConfusion hc)
  | .ok x, .ok y =>
    if h : x = y then .isTrue (by rw [h]) else .isFalse (fun hc => h (Except.ok.inj hc))

/-- Model of Python `fs.sep.join(parts)`: concatenate the parts with the
separator between consecutive parts. -/
def sepJoin (sep : String) : List String → String
  | [] => ""
  | [a] => a
  | a :: rest => a ++ sep ++ sepJoin sep rest

/-- The dtype of column `c` of `df`: the model of `df[col].dtype` (lookup by
name, first match; `int64` when the name is absent). -/
def colDtype (df : DataFrame) (c : String) : Dtype :=
  df.dtypes.getD (List.indexOf c df.cols) Dtype.int64

/-- Model of the loop `for col in df.columns: if df[col].dtype.name ==
"category"` (`parquet.py` lines 229-235). -/
def hasCategoricalCols (df : DataFrame) : Bool :=
  df.cols.any (fun c => decide (colDtype df c = Dtype.category))

/-- Model of `write_df.drop(columns=partition_cols)` (`parquet.py` line 113)
and of `df.columns.drop(partition_cols)` (line 87): remove the partition
columns together with the corresponding cell of every row. -/
def dropColumns (df : DataFrame) (pcols : List String) : DataFrame where
  cols := df.cols.filter (fun c => decide (c ∉ pcols))
  dtypes := (df.cols.zip df.dtypes).filterMap
    (fun p => if p.1 ∈ pcols then none else some p.2)
  rows := df.rows.map
    (fun r => (df.cols.zip r).filterMap (fun p => if p.1 ∈ pcols then none else some p.2))

/-- Descriptor of one row group inside a `FileMetadata` (spec section 3): row
count plus the file-path annotation that the metadata merger fills in. -/
structure RowGroupDesc where
  numRows : Nat
  filePath : Option String
deriving DecidableEq, Repr

/-- Model of the opaque `FileMetadata` blob handled by `return_metadata` /
`merge_parquet_filemetadata` (spec section 3): schema, row-group descriptors,
and the embedded `metadata_file_path`. -/
structure FileMetadata where
  schema : List (String × Dtype)
  rowGroups : List RowGroupDesc
  metadataFilePath : Option String
deriving DecidableEq, Repr

/-- Modelled from the spec: `libparquet.write_parquet` (the FileWriter of spec
section 4.3) is not part of this fragment.  Per the spec it writes the
dataframe and returns a `FileMetadata` carrying the table's schema and the
passed `metadata_file_path` for later relative-path resolution; the
`compression`/`statistics` options do not change this shape.  The categorical
rejection lives in `to_parquet` itself (`parquet.py` lines 229-235), not
here. -/
def libWriteParquet (df : DataFrame) (metadata_file_path : Option String) : FileMetadata where
  schema := df.cols.zip df.dtypes
  rowGroups := [⟨df.rows.length, none⟩]
  metadataFilePath := metadata_file_path

/-- Modelled from the spec: `libparquet.merge_filemetadata` (the
MetadataMerger of spec section 4.5) is not part of this fragment.  All inputs
must share one schema (`SchemaMismatch` otherwise); the result concatenates
the row-group sequences in input order, stamping every row group with its
file's `metadataFilePath`. -/
def merge_filemetadata : List FileMetadata → Except PqError FileMetadata
  | [] => .error .SchemaMismatch
  | m :: rest =>
    if rest.all (fun m2 => decide (m2.schema = m.schema)) then
      .ok ⟨m.schema,
        ((m :: rest).map
          (fun mm => mm.rowGroups.map (fun rg => ⟨rg.numRows, mm.metadataFilePath⟩))).flatten,
        none⟩
    else .error .SchemaMismatch

/-- Model of `merge_parquet_filemetadata(filemetadata_list)` (`parquet.py`
lines 257-261): a thin wrapper over `libparquet.merge_filemetadata`. -/
def merge_parquet_filemetadata (ms : List FileMetadata) : Except PqError FileMetadata :=
  merge_filemetadata ms

/-- Model of the return step of `write_to_dataset` (`parquet.py` lines
141-146): `if metadata: return merge_parquet_filemetadata(metadata) if
len(metadata) > 1 else metadata[0]`.  `none` models the fall-through (no
`return` executes, the function yields `None`). -/
def metadata_merge_step (metadata : List FileMetadata) :
    Option (Except PqError FileMetadata) :=
  if metadata ≠ [] then
    some (if 1 < metadata.length then merge_parquet_filemetadata metadata
      else .ok (metadata.headD ⟨[], [], none⟩))
  else none

/-- Record of one file written by the writer layer: its full path, the
dataframe written into it, and the `metadata_file_path` handed to the
accelerated writer. -/
structure FileWrite where
  path : String
  df : DataFrame
  metadataFilePath : Option String
deriving DecidableEq, Repr

/-- Observable outcome of a write call: the files written, and the Python
return value (`none` models `None`). -/
structure WriteResult where
  files : List FileWrite
  meta : Option FileMetadata
deriving DecidableEq, Repr

/-- The engine="cudf", no-partition-columns branch of `to_parquet`
(`parquet.py` lines 229-244): reject dataframes having a `category`-dtype
column (the `ValueError` of lines 232-235, spec name
`UnsupportedCategoricalType`), otherwise write through
`libparquet.write_parquet`.  The per-group `write_df.to_parquet(...)` calls of
`write_to_dataset` (lines 116-124) reach this same code: the
`DataFrame.to_parquet` method (not in this fragment) dispatches to
`to_parquet` with no partition columns — per spec section 4.6 each group is
written via the FileWriter of section 4.3 with its categorical rejection. -/
def to_parquet_single (df : DataFrame) (path : String)
    (metadata_file_path : Option String) : Except PqError (FileWrite × FileMetadata) :=
  if hasCategoricalCols df then .error .UnsupportedCategoricalType
  else .ok (⟨path, df, metadata_file_path⟩, libWriteParquet df metadata_file_path)

/-- The file and the metadata that the group loop produces for the enumerated
group `(i, sub_df)`: a straight-line reading of `parquet.py` lines 99-122. -/
def writeEntry (pcols : List String) (root_path sep : String) (guids : Nat → String)
    (return_metadata : Bool) (i : Nat) (sub_df : DataFrame) : FileWrite × FileMetadata :=
  let keys := pcols.map
    (fun c => (sub_df.rows.headD []).getD (List.indexOf c sub_df.cols) PVal.nullV)
  let subdir := sepJoin sep
    ((pcols.zip keys).map (fun p => p.1 ++ "=" ++ p.2.text))
  let dirPath := sepJoin sep [root_path, subdir]
  let outfile := guids i ++ ".parquet"
  let full_path := sepJoin sep [dirPath, outfile]
  let write_df := dropColumns sub_df pcols
  let mfp := if return_metadata then some (sepJoin sep [subdir, outfile])
    else none
  (⟨full_path, write_df, mfp⟩, libWriteParquet write_df mfp)

/-- The group loop of `write_to_dataset` (`parquet.py` lines 91-124): for each
enumerated partition group, skip it when empty (lines 97-98), otherwise take
the partition-key values from the group's first row (line 99), build the
`col=value` subdirectory (lines 102-107), generate the output name from the
guid supply (line 110), drop the partition columns (lines 112-113) and write
the group, with `metadata_file_path` set to the root-relative path when
metadata is requested (lines 114-124).  `fs.mkdirs` has no observable effect
in the model. -/
def writeGroups (pcols : List String) (root_path sep : String) (guids : Nat → String)
    (return_metadata : Bool) :
    List (Nat × DataFrame) → Except PqError (List (FileWrite × FileMetadata))
  | [] => .ok []
  | (i, sub_df) :: rest =>
    if sub_df.rows = [] then writeGroups pcols root_path sep guids return_metadata rest
    else
      let keys := pcols.map
        (fun c => (sub_df.rows.headD []).getD (List.indexOf c sub_df.cols) PVal.nullV)
      let subdir := sepJoin sep
        ((pcols.zip keys).map (fun p => p.1 ++ "=" ++ p.2.text))
      let dirPath := sepJoin sep [root_path, subdir]
      let outfile := guids i ++ ".parquet"
      let full_path := sepJoin sep [dirPath, outfile]
      let write_df := dropColumns sub_df pcols
      let mfp := if return_metadata then some (sepJoin sep [subdir, outfile])
        else none
      match to_parquet_single write_df full_path mfp with
      | .error e => .error e
      | .ok r =>
        match writeGroups pcols root_path sep guids return_metadata rest with
        | .error e => .error e
        | .ok rs => .ok (r :: rs)

/-- Model of `write_to_dataset(df, root_path, partition_cols, fs,
preserve_index, return_metadata, **kwargs)` (`parquet.py` lines 41-146).  The
filesystem is represented by its separator `sep` and the fresh-name supply
`guids` (`guid()` at lines 110 and 127; the supply is indexed by the
enumeration counter of the group loop); `fs.mkdirs` has no observable effect.
`df.columns.drop(partition_cols)` (line 87) presumes `partition_cols ⊆
df.cols` in pandas; the model filters the column list. -/
def write_to_dataset (df : DataFrame) (root_path : String) (pcols : List String)
    (sep : String) (guids : Nat → String) (preserve_index return_metadata : Bool) :
    Except PqError WriteResult :=
  if pcols ≠ [] then
    if df.cols.filter (fun c => decide (c ∉ pcols)) = [] then .error .NoDataColumns
    else
      match writeGroups pcols root_path sep guids return_metadata
          (_get_partition_groups df pcols preserve_index).enum with
      | .error e => .error e
      | .ok results =>
        match metadata_merge_step
            (if return_metadata then results.map (fun r => r.2) else []) with
        | some (.error e) => .error e
        | some (.ok m) => .ok ⟨results.map (fun r => r.1), some m⟩
        | none => .ok ⟨results.map (fun r => r.1), none⟩
  else
    let outfile := guids 0 ++ ".parquet"
    let full_path := sepJoin sep [root_path, outfile]
    let mfp := if return_metadata then some outfile else none
    match to_parquet_single df full_path mfp with
    | .error e => .error e
    | .ok r =>
      match metadata_merge_step (if return_metadata then [r.2] else []) with
      | some (.error e) => .error e
      | some (.ok m) => .ok ⟨[r.1], some m⟩
      | none => .ok ⟨[r.1], none⟩

/-- Model of `to_parquet(df, path, engine, compression, index, partition_cols,
statistics, metadata_file_path, *args, **kwargs)` (`parquet.py` lines
203-254).  `return_metadata` travels inside `**kwargs` and is forwarded to
`write_to_dataset`.  On the accelerated path with partition columns the
source calls `write_to_dataset(...)` and then executes a bare `return` (lines
220-227): the files are written but the function's value is `None`, so the
model keeps the files and discards the returned metadata.  `compression` and
`statistics` only parameterize the external writer and do not affect the
modelled observables.  The non-accelerated branch delegates to the pyarrow
collaborator `paWrite` (lines 245-254). -/
def to_parquet (df : DataFrame) (path : String) (engine : String)
    (pcols : List String) (index return_metadata : Bool)
    (metadata_file_path : Option String) (sep : String) (guids : Nat → String)
    (paWrite : DataFrame → String → List String → WriteResult) :
    Except PqError WriteResult :=
  if engine = "cudf" then
    if pcols ≠ [] then
      match write_to_dataset df path pcols sep guids index return_metadata with
      | .error e => .error e
      | .ok r => .ok ⟨r.files, none⟩
    else
      match to_parquet_single df path metadata_file_path with
      | .error e => .error e
      | .ok r => .ok ⟨[r.1], some r.2⟩
  else
    .ok (paWrite df path pcols)

/-- Model of `read_parquet` (`parquet.py` lines 162-200).  The external
collaborators are parameters: `gfb` models `ioutils.get_filepath_or_buffer`
(returning the buffer and any detected URL content-encoding compression),
`libRead` models `libparquet.read_parquet`, `paRead` models `pq.read_pandas`
(returning an arrow table of abstract type `A`), and `from_arrow` models
`cudf.DataFrame.from_arrow`.  On the non-accelerated branch only the buffer,
`columns`, `*args` and `**kwargs` are forwarded (lines 195-200); the
row-group, row-range, categorical and pandas-metadata parameters are not. -/
def read_parquet {A : Type}
    (gfb : String → List (String × String) → String × Option String)
    (libRead : String → Option (List String) → Option Nat → Option Nat →
      Option Nat → Option Nat → Bool → Bool → DataFrame)
    (paRead : String → Option (List String) → List String →
      List (String × String) → A)
    (from_arrow : A → DataFrame)
    (filepath_or_buffer engine : String) (columns : Option (List String))
    (row_group row_group_count skip_rows num_rows : Option Nat)
    (strings_to_categorical use_pandas_metadata : Bool)
    (args : List String) (kwargs : List (String × String)) :
    Except PqError DataFrame :=
  let fb := gfb filepath_or_buffer kwargs
  if fb.2.isSome then .error .CompressionNotSupported
  else if engine = "cudf" then
    .ok (libRead fb.1 columns row_group row_group_count skip_rows num_rows
      strings_to_categorical use_pandas_metadata)
  else
    .ok (from_arrow (paRead fb.1 columns args kwargs))

/-- A column of the codec-level table (spec section 3): name, dtype and cells,
with `nullV` playing the null marker. -/
structure PColumn where
  name : String
  dtype : Dtype
  cells : List PVal
deriving DecidableEq, Repr

/-- Codec-level table: ordered sequence of named columns (spec section 3). -/
abbrev PTable := List PColumn

/-- Encoded form of one column chunk (spec section 4.1): plain values, or a
dictionary (distinct values plus per-cell indices). -/
inductive Chunk where
  | plain (vals : List PVal)
  | dict (d : List PVal) (idx : List Nat)
deriving DecidableEq, Repr

/-- Modelled from the spec: `ColumnChunkCodec.encode` (spec section 4.1) is
not in this fragment.  Dictionary encoding is chosen when distinct/total <
0.5, else plain encoding. -/
def encodeChunk (cells : List PVal) : Chunk :=
  let d := drop_duplicates cells
  if 2 * d.length < cells.length then
    .dict d (cells.map (fun c => List.indexOf c d))
  else .plain cells

/-- Modelled from the spec: `ColumnChunkCodec.decode` (spec section 4.1). -/
def decodeChunk : Chunk → List PVal
  | .plain vals => vals
  | .dict d idx => idx.map (fun i => d.getD i PVal.nullV)

/-- A Parquet file as the codec sees it (spec section 6): schema plus row
groups, each row group holding one chunk per column. -/
structure PFile where
  schema : List (String × Dtype)
  rowGroups : List (List Chunk)
deriving DecidableEq, Repr

/-- Modelled from the spec: the row-group assembly loop of
`RowGroupAssembler`/`FileWriter` (spec sections 4.2-4.3): cut every column at
the row-group boundaries and encode each piece.  `sizes` lists the row counts
of the successive row groups. -/
def writeRowGroups : List Nat → PTable → List (List Chunk)
  | [], _ => []
  | s :: ss, t =>
    t.map (fun c => encodeChunk (c.cells.take s)) ::
      writeRowGroups ss (t.map (fun c => ⟨c.name, c.dtype, c.cells.drop s⟩))

/-- Modelled from the spec: `FileWriter` (spec section 4.3): write a table
into a file split into row groups of the given sizes. -/
def writeFile (t : PTable) (sizes : List Nat) : PFile :=
  ⟨t.map (fun c => (c.name, c.dtype)), writeRowGroups sizes t⟩

/-- Modelled from the spec: `FileReader.read` with no projection and no
row-group or row-range selection (spec section 4.4): decode every chunk and
concatenate the row groups column by column, rebuilding the table in schema
order. -/
def readFile (f : PFile) : PTable :=
  (List.range f.schema.length).map
    (fun j =>
      ⟨(f.schema.getD j ("", Dtype.int64)).1, (f.schema.getD j ("", Dtype.int64)).2,
        (f.rowGroups.map (fun rg => decodeChunk (rg.getD j (.plain [])))).flatten⟩)

/-! ### Generic lemmas about `drop_duplicates`, `searchsorted` counts and slices -/

theorem ddScan_sublist {β : Type} [DecidableEq β] : ∀ (seen l : List β), (ddScan seen l).Sublist l := by
  intro seen l
  induction l generalizing seen with
  | nil => exact List.Sublist.refl _
  | cons a l ih =>
    simp only [ddScan]
    by_cases h : a ∈ seen
    · rw [if_pos h]
      exact (ih seen).cons a
    · rw [if_neg h]
      exact (ih (a :: seen)).cons₂ a

theorem mem_ddScan {β : Type} [DecidableEq β] (x : β) :
    ∀ (seen l : List β), x ∈ ddScan seen l ↔ x ∈ l ∧ x ∉ seen := by
  intro seen l
  induction l generalizing seen with
  | nil => simp [ddScan]
  | cons a l ih =>
    simp only [ddScan]
    by_cases h : a ∈ seen
    · rw [if_pos h, ih seen]
      constructor
      · exact fun hp => ⟨List.mem_cons_of_mem a hp.1, hp.2⟩
      · rintro ⟨h1, h2⟩
        rcases List.mem_cons.mp h1 with rfl | h1
        · exact absurd h h2
        · exact ⟨h1, h2⟩
    · rw [if_neg h]
      simp only [List.mem_cons, ih (a :: seen), not_or]
      constructor
      · rintro (rfl | ⟨h1, h2, h3⟩)
        · exact ⟨Or.inl rfl, h⟩
        · exact ⟨Or.inr h1, h3⟩
      · rintro ⟨rfl | h1, h2⟩
        · exact Or.inl rfl
        · by_cases hxa : x = a
          · exact Or.inl hxa
          · exact Or.inr ⟨h1, hxa, h2⟩

theorem ddScan_nodup {β : Type} [DecidableEq β] : ∀ (seen l : List β), (ddScan seen l).Nodup := by
  intro seen l
  induction l generalizing seen with
  | nil => simp [ddScan]
  | cons a l ih =>
    simp only [ddScan]
    by_cases h : a ∈ seen
    · rw [if_pos h]; exact ih seen
    · rw [if_neg h]
      refine List.nodup_cons.mpr ⟨?_, ih (a :: seen)⟩
      intro hmem
      exact ((mem_ddScan a (a :: seen) l).mp hmem).2 (List.mem_cons_self a seen)

theorem mem_drop_duplicates {β : Type} [DecidableEq β] {x : β} {l : List β} :
    x ∈ drop_duplicates l ↔ x ∈ l := by
  simp [drop_duplicates, mem_ddScan]

theorem drop_duplicates_sublist {β : Type} [DecidableEq β] (l : List β) :
    (drop_duplicates l).Sublist l :=
  ddScan_sublist [] l

theorem drop_duplicates_nodup {β : Type} [DecidableEq β] (l : List β) :
    (drop_duplicates l).Nodup :=
  ddScan_nodup [] l

theorem drop_duplicates_pairwise_lt {K : Type} [DecidableEq K] [LinearOrder K] {ks : List K}
    (hs : ks.Pairwise (· ≤ ·)) : (drop_duplicates ks).Pairwise (· < ·) := by
  have hle : (drop_duplicates ks).Pairwise (· ≤ ·) :=
    hs.sublist (drop_duplicates_sublist ks)
  have hne : (drop_duplicates ks).Pairwise (· ≠ ·) := drop_duplicates_nodup ks
  exact (hle.and hne).imp (fun h => lt_of_le_of_ne h.1 h.2)

theorem drop_duplicates_cons {β : Type} [DecidableEq β] (k : β) (ks : List β) :
    drop_duplicates (k :: ks) = k :: ddScan [k] ks := by
  simp [drop_duplicates, ddScan]

theorem countP_lt_of_mem_lt {K : Type} [LinearOrder K] {d e : K} {l : List K}
    (hd : d ∈ l) (hde : d < e) :
    l.countP (fun k => decide (k < d)) < l.countP (fun k => decide (k < e)) := by
  induction l with
  | nil => cases hd
  | cons a l ih =>
    have hmono : List.countP (fun k => decide (k < d)) l ≤
        List.countP (fun k => decide (k < e)) l :=
      List.countP_mono_left (fun x _ hx => by
        simp only [decide_eq_true_eq] at hx ⊢
        exact hx.trans hde)
    rcases List.mem_cons.mp hd with heq | hd
    · rw [List.countP_cons_of_neg _ _ (by simp [heq]),
        List.countP_cons_of_pos _ _ (by simp [← heq, hde])]
      omega
    · have hie := ih hd
      by_cases h : a < d
      · rw [List.countP_cons_of_pos _ _ (by simpa using h),
          List.countP_cons_of_pos _ _ (by simpa using h.trans hde)]
        omega
      · rw [List.countP_cons_of_neg _ _ (by simpa using h)]
        by_cases h2 : a < e
        · rw [List.countP_cons_of_pos _ _ (by simpa using h2)]
          omega
        · rw [List.countP_cons_of_neg _ _ (by simpa using h2)]
          omega

theorem countP_lt_length_of_mem {K : Type} [LinearOrder K] {d : K} {l : List K} (hd : d ∈ l) :
    l.countP (fun k => decide (k < d)) < l.length := by
  rcases Nat.lt_or_ge (l.countP (fun k => decide (k < d))) l.length with h | h
  · exact h
  · exfalso
    have hle := List.countP_le_length (fun k => decide (k < d)) (l := l)
    have hall := List.countP_eq_length.mp (le_antisymm hle h)
    exact absurd (of_decide_eq_true (hall d hd)) (lt_irrefl d)

theorem sorted_countP_lt_eq_zero {K : Type} [LinearOrder K] {l : List K} {a : K}
    (hha : ∀ k ∈ l, a ≤ k) {d : K} (h : ¬ a < d) :
    List.countP (fun k => decide (k < d)) (a :: l) = 0 := by
  apply List.countP_eq_zero.mpr
  intro k hk
  simp only [decide_eq_true_eq]
  rcases List.mem_cons.mp hk with rfl | hk
  · exact h
  · exact fun hkd => h (lt_of_le_of_lt (hha k hk) hkd)

theorem sorted_mem_take_countP {K : Type} [LinearOrder K] {l : List K}
    (hs : l.Pairwise (· ≤ ·)) {d x : K}
    (hx : x ∈ l.take (l.countP (fun k => decide (k < d)))) : x < d := by
  induction l with
  | nil => simp at hx
  | cons a l ih =>
    obtain ⟨hha, hs2⟩ := List.pairwise_cons.mp hs
    by_cases h : a < d
    · rw [List.countP_cons_of_pos _ _ (by simpa using h), List.take_succ_cons] at hx
      rcases List.mem_cons.mp hx with rfl | hx
      · exact h
      · exact ih hs2 hx
    · rw [sorted_countP_lt_eq_zero hha h, List.take_zero] at hx
      simp at hx

theorem sorted_mem_drop_countP {K : Type} [LinearOrder K] {l : List K}
    (hs : l.Pairwise (· ≤ ·)) {d x : K}
    (hx : x ∈ l.drop (l.countP (fun k => decide (k < d)))) : d ≤ x := by
  induction l with
  | nil => simp at hx
  | cons a l ih =>
    obtain ⟨hha, hs2⟩ := List.pairwise_cons.mp hs
    by_cases h : a < d
    · rw [List.countP_cons_of_pos _ _ (by simpa using h), List.drop_succ_cons] at hx
      exact ih hs2 hx
    · rw [sorted_countP_lt_eq_zero hha h, List.drop_zero] at hx
      rcases List.mem_cons.mp hx with rfl | hx
      · exact le_of_not_lt h
      · exact le_trans (le_of_not_lt h) (hha x hx)

theorem partitionSplits_eq_splitsOf (df : DataFrame) (pcols : List String) :
    partitionSplits df pcols = splitsOf (sortedKeys df pcols) := rfl

theorem splitsOf_length {K : Type} [DecidableEq K] [LinearOrder K] (ks : List K) :
    (splitsOf ks).length = (drop_duplicates ks).length + 1 := by
  simp [splitsOf]

theorem splitsOf_getD_lt {K : Type} [DecidableEq K] [LinearOrder K] (ks : List K) (dflt : K)
    (i : Nat) (h : i < (drop_duplicates ks).length) :
    (splitsOf ks).getD i 0 =
      ks.countP (fun k => decide (k < (drop_duplicates ks).getD i dflt)) := by
  rw [splitsOf]
  rw [List.getD_append _ _ _ i (by simpa using h)]
  rw [List.getD_eq_getElem _ _ (by simpa using h)]
  rw [List.getElem_map]
  rw [List.getD_eq_getElem _ dflt h]

theorem splitsOf_getD_last {K : Type} [DecidableEq K] [LinearOrder K] (ks : List K) :
    (splitsOf ks).getD (drop_duplicates ks).length 0 = ks.length := by
  rw [splitsOf, List.getD_append_right _ _ _ _ (by simp)]
  simp

theorem splitsOf_getLast_eq {K : Type} [DecidableEq K] [LinearOrder K] (ks : List K) :
    (splitsOf ks).getLast? = some ks.length := by
  simp [splitsOf]

theorem splitsOf_chain_lt {K : Type} [DecidableEq K] [LinearOrder K] {ks : List K}
    (hs : ks.Pairwise (· ≤ ·)) : List.Chain' (· < ·) (splitsOf ks) := by
  apply List.chain'_iff_get.mpr
  intro i hi
  have hlen : (splitsOf ks).length = (drop_duplicates ks).length + 1 := splitsOf_length ks
  rw [hlen, Nat.add_sub_cancel] at hi
  have hb1 : i < (splitsOf ks).length := by omega
  have hb2 : i + 1 < (splitsOf ks).length := by omega
  obtain ⟨d0, ds, hdd⟩ : ∃ d0 ds, drop_duplicates ks = d0 :: ds := by
    cases hcase : drop_duplicates ks with
    | nil => rw [hcase] at hi; simp at hi
    | cons d0 ds => exact ⟨d0, ds, rfl⟩
  have hpw : (drop_duplicates ks).Pairwise (· < ·) := drop_duplicates_pairwise_lt hs
  have hmem : ∀ j (hj : j < (drop_duplicates ks).length),
      (drop_duplicates ks).getD j d0 ∈ ks := by
    intro j hj
    rw [List.getD_eq_getElem _ d0 hj]
    exact mem_drop_duplicates.mp (List.getElem_mem _)
  rw [List.get_eq_getElem, List.get_eq_getElem,
    ← List.getD_eq_getElem _ 0 hb1, ← List.getD_eq_getElem _ 0 hb2]
  rcases Nat.lt_or_ge (i + 1) (drop_duplicates ks).length with h2 | h2
  · rw [splitsOf_getD_lt ks d0 i hi, splitsOf_getD_lt ks d0 (i + 1) h2]
    apply countP_lt_of_mem_lt (hmem i hi)
    rw [List.getD_eq_getElem _ d0 hi, List.getD_eq_getElem _ d0 h2]
    exact List.pairwise_iff_get.mp hpw ⟨i, hi⟩ ⟨i + 1, h2⟩ (by simp)
  · have he : i + 1 = (drop_duplicates ks).length := by omega
    rw [he, splitsOf_getD_last, splitsOf_getD_lt ks d0 i hi]
    exact countP_lt_length_of_mem (hmem i hi)

theorem slicesBy_length {β : Type} (offs : List Nat) (l : List β) :
    (slicesBy offs l).length = offs.length - 1 := by
  simp [slicesBy]

theorem slicesBy_getD {β : Type} (offs : List Nat) (l : List β) (i : Nat)
    (h : i < offs.length - 1) :
    (slicesBy offs l).getD i [] =
      (l.drop (offs.getD i 0)).take (offs.getD (i + 1) 0 - offs.getD i 0) := by
  have hb : i < (slicesBy offs l).length := by rw [slicesBy_length]; exact h
  rw [List.getD_eq_getElem _ _ hb]
  simp [slicesBy]

theorem slicesBy_cons_cons {β : Type} (a b : Nat) (rest : List Nat) (l : List β) :
    slicesBy (a :: b :: rest) l =
      (l.drop a).take (b - a) :: slicesBy (b :: rest) l := by
  simp only [slicesBy, List.length_cons, Nat.add_sub_cancel]
  rw [List.range_succ_eq_map]
  simp [List.map_map, Function.comp_def, List.getD_cons_succ]

theorem flatten_slicesBy {β : Type} :
    ∀ (offs : List Nat) (a : Nat) (l : List β),
      List.Chain' (· ≤ ·) (a :: offs) → (a :: offs).getLast? = some l.length →
      (slicesBy (a :: offs) l).flatten = l.drop a := by
  intro offs
  induction offs with
  | nil =>
    intro a l _ hlast
    have ha : a = l.length := by simpa using hlast
    subst ha
    simp [slicesBy, List.drop_length]
  | cons b rest ih =>
    intro a l hchain hlast
    rw [slicesBy_cons_cons]
    have hab : a ≤ b := (List.chain'_cons.mp hchain).1
    have h2 : (slicesBy (b :: rest) l).flatten = l.drop b :=
      ih b l (List.chain'_cons.mp hchain).2 (by simpa using hlast)
    rw [List.flatten_cons, h2]
    have hdb : l.drop b = (l.drop a).drop (b - a) := by
      rw [List.drop_drop]
      congr 1
      omega
    rw [hdb, List.take_append_drop]

theorem sorted_slice_mem_key {K : Type} [DecidableEq K] [LinearOrder K] {α : Type}
    (key : α → K) {rows : List α} (hs : (rows.map key).Pairwise (· ≤ ·))
    (dflt : K) (i : Nat) (hi : i < (drop_duplicates (rows.map key)).length) :
    ∀ r ∈ (slicesBy (splitsOf (rows.map key)) rows).getD i [],
      key r = (drop_duplicates (rows.map key)).getD i dflt := by
  intro r hr
  rw [slicesBy_getD _ _ i (by rw [splitsOf_length]; omega)] at hr
  have ha : (splitsOf (rows.map key)).getD i 0 =
      (rows.map key).countP
        (fun k => decide (k < (drop_duplicates (rows.map key)).getD i dflt)) :=
    splitsOf_getD_lt _ dflt i hi
  have hrdrop : r ∈ rows.drop ((splitsOf (rows.map key)).getD i 0) :=
    List.mem_of_mem_take hr
  have hlow : (drop_duplicates (rows.map key)).getD i dflt ≤ key r := by
    have hmem : key r ∈ (rows.map key).drop ((splitsOf (rows.map key)).getD i 0) := by
      rw [← List.map_drop]
      exact List.mem_map_of_mem key hrdrop
    rw [ha] at hmem
    exact sorted_mem_drop_countP hs hmem
  have hupper : ∀ _hj : i + 1 < (drop_duplicates (rows.map key)).length,
      key r < (drop_duplicates (rows.map key)).getD (i + 1) dflt := by
    intro hj
    have hb : (splitsOf (rows.map key)).getD (i + 1) 0 =
        (rows.map key).countP
          (fun k => decide (k < (drop_duplicates (rows.map key)).getD (i + 1) dflt)) :=
      splitsOf_getD_lt _ dflt (i + 1) hj
    have h3 : r ∈ rows.take ((splitsOf (rows.map key)).getD (i + 1) 0) := by
      have h0 := hr
      rw [← List.drop_take] at h0
      exact List.mem_of_mem_drop h0
    have h4 : key r ∈ (rows.map key).take ((splitsOf (rows.map key)).getD (i + 1) 0) := by
      rw [← List.map_take]
      exact List.mem_map_of_mem key h3
    rw [hb] at h4
    exact sorted_mem_take_countP hs h4
  have hrrows : r ∈ rows := List.mem_of_mem_drop hrdrop
  have hkmem : key r ∈ drop_duplicates (rows.map key) :=
    mem_drop_duplicates.mpr (List.mem_map_of_mem key hrrows)
  obtain ⟨j, hj, hjeq⟩ := List.getElem_of_mem hkmem
  have hpw := drop_duplicates_pairwise_lt hs
  have hdi : (drop_duplicates (rows.map key)).getD i dflt =
      (drop_duplicates (rows.map key))[i] := List.getD_eq_getElem _ dflt hi
  have hij : ¬ j < i := by
    intro hlt
    have hpg := List.pairwise_iff_get.mp hpw ⟨j, hj⟩ ⟨i, hi⟩ (by simpa using hlt)
    rw [List.get_eq_getElem, List.get_eq_getElem, hjeq] at hpg
    rw [hdi] at hlow
    exact absurd hlow (not_le_of_lt hpg)
  have hji : ¬ i < j := by
    intro hlt
    have hj1 : i + 1 < (drop_duplicates (rows.map key)).length := by omega
    have hup := hupper hj1
    rw [List.getD_eq_getElem _ dflt hj1] at hup
    have hle2 : (drop_duplicates (rows.map key))[i + 1] ≤
        (drop_duplicates (rows.map key))[j] := by
      rcases Nat.eq_or_lt_of_le (Nat.succ_le_of_lt hlt) with heq2 | hlt2
      · subst heq2
        exact le_refl _
      · have hpg := List.pairwise_iff_get.mp hpw ⟨i + 1, hj1⟩ ⟨j, hj⟩ (by simpa using hlt2)
        rw [List.get_eq_getElem, List.get_eq_getElem] at hpg
        exact le_of_lt hpg
    rw [hjeq] at hle2
    exact (not_lt.mpr hle2) hup
  have hjei : j = i := by omega
  subst hjei
  rw [hdi]
  exact hjeq.symm

theorem sorted_slice_ne_nil {K : Type} [DecidableEq K] [LinearOrder K] {α : Type}
    (key : α → K) {rows : List α} (hs : (rows.map key).Pairwise (· ≤ ·))
    (i : Nat) (hi : i < (drop_duplicates (rows.map key)).length) :
    (slicesBy (splitsOf (rows.map key)) rows).getD i [] ≠ [] := by
  obtain ⟨d0, ds, hdd⟩ : ∃ d0 ds, drop_duplicates (rows.map key) = d0 :: ds := by
    cases hcase : drop_duplicates (rows.map key) with
    | nil => rw [hcase] at hi; simp at hi
    | cons d0 ds => exact ⟨d0, ds, rfl⟩
  have ha := splitsOf_getD_lt (rows.map key) d0 i hi
  have hamem : (drop_duplicates (rows.map key)).getD i d0 ∈ rows.map key := by
    rw [List.getD_eq_getElem _ d0 hi]
    exact mem_drop_duplicates.mp (List.getElem_mem _)
  have halt : (splitsOf (rows.map key)).getD i 0 < rows.length := by
    rw [ha]
    have h0 := countP_lt_length_of_mem hamem
    simpa using h0
  have hab : (splitsOf (rows.map key)).getD i 0 < (splitsOf (rows.map key)).getD (i + 1) 0 := by
    rcases Nat.lt_or_ge (i + 1) (drop_duplicates (rows.map key)).length with h2 | h2
    · rw [ha, splitsOf_getD_lt _ d0 (i + 1) h2]
      apply countP_lt_of_mem_lt hamem
      rw [List.getD_eq_getElem _ d0 hi, List.getD_eq_getElem _ d0 h2]
      exact List.pairwise_iff_get.mp (drop_duplicates_pairwise_lt hs)
        ⟨i, hi⟩ ⟨i + 1, h2⟩ (by simp)
    · have he : i + 1 = (drop_duplicates (rows.map key)).length := by omega
      rw [he, splitsOf_getD_last, ha]
      have h0 := countP_lt_length_of_mem hamem
      simpa using h0
  rw [slicesBy_getD _ _ i (by rw [splitsOf_length]; omega)]
  apply List.ne_nil_of_length_pos
  rw [List.length_take, List.length_drop]
  exact lt_min_iff.mpr ⟨by omega, by omega⟩

theorem sortedKeys_pairwise (df : DataFrame) (pcols : List String) :
    (sortedKeys df pcols).Pairwise (· ≤ ·) := by
  have h : ((sort_values df pcols).rows).Pairwise (keyLe (projKey df.cols pcols)) := by
    haveI : IsTotal Row (keyLe (projKey df.cols pcols)) := ⟨fun a b => le_total _ _⟩
    haveI : IsTrans Row (keyLe (projKey df.cols pcols)) := ⟨fun a b c => le_trans⟩
    exact List.sorted_insertionSort _ _
  exact h.map _ (fun a b hab => hab)

theorem sort_values_perm (df : DataFrame) (pcols : List String) :
    (sort_values df pcols).rows.Perm df.rows :=
  List.perm_insertionSort _ _

theorem sortedKeys_def (df : DataFrame) (pcols : List String) :
    sortedKeys df pcols = (sort_values df pcols).rows.map (projKey df.cols pcols) := rfl

theorem get_partition_groups_length (df : DataFrame) (pcols : List String) :
    (_get_partition_groups df pcols).length = (partitionDivisions df pcols).length := by
  rw [_get_partition_groups, List.length_map, slicesBy_length,
    partitionSplits_eq_splitsOf, splitsOf_length]
  simp [partitionDivisions]

theorem get_partition_groups_rows (df : DataFrame) (pcols : List String) (i : Nat)
    (hi : i < (_get_partition_groups df pcols).length) :
    ((_get_partition_groups df pcols).get ⟨i, hi⟩).rows =
      (slicesBy (splitsOf (sortedKeys df pcols)) (sort_values df pcols).rows).getD i [] := by
  have hb : i < (slicesBy (splitsOf (sortedKeys df pcols))
      (sort_values df pcols).rows).length := by
    rw [← partitionSplits_eq_splitsOf]
    simpa [_get_partition_groups] using hi
  rw [List.getD_eq_getElem _ _ hb, List.get_eq_getElem]
  simp only [_get_partition_groups, List.getElem_map, partitionSplits_eq_splitsOf]

/-- C1: for every dataframe and every non-empty list of partition columns,
`_get_partition_groups` returns a list of contiguous, pairwise-disjoint row
slices whose concatenation equals the input dataframe sorted by the partition
columns (the slices tile the sorted rows in order), with exactly one group per
distinct partition-key tuple present in the data (as many groups as distinct
keys, the distinct keys being exactly the key tuples occurring in the data,
each group non-empty), and every row of a group carrying that group's
partition-key tuple. -/
theorem get_partition_groups_correct (df : DataFrame) (pcols : List String)
    (hp : pcols ≠ []) :
    (((_get_partition_groups df pcols).map DataFrame.rows).flatten =
        (sort_values df pcols).rows) ∧
    (_get_partition_groups df pcols).length = (partitionDivisions df pcols).length ∧
    (partitionDivisions df pcols).Nodup ∧
    (∀ k, k ∈ partitionDivisions df pcols ↔ k ∈ df.rows.map (projKey df.cols pcols)) ∧
    (∀ i (hi : i < (_get_partition_groups df pcols).length),
      ((_get_partition_groups df pcols).get ⟨i, hi⟩).rows ≠ [] ∧
      ∀ r ∈ ((_get_partition_groups df pcols).get ⟨i, hi⟩).rows,
        projKey df.cols pcols r = (partitionDivisions df pcols).getD i []) := by
  refine ⟨?_, get_partition_groups_length df pcols, drop_duplicates_nodup _, ?_, ?_⟩
  · have hmm : ((_get_partition_groups df pcols).map DataFrame.rows) =
        slicesBy (splitsOf (sortedKeys df pcols)) (sort_values df pcols).rows := by
      rw [_get_partition_groups, List.map_map, partitionSplits_eq_splitsOf]
      have hcomp : (DataFrame.rows ∘ fun rs => { df with rows := rs }) = id := by
        funext rs; rfl
      rw [hcomp, List.map_id]
    rw [hmm]
    cases hks : sortedKeys df pcols with
    | nil =>
      have hrows : (sort_values df pcols).rows = [] := by
        have hlen := congrArg List.length hks
        simpa [sortedKeys] using hlen
      rw [hrows]
      simp [splitsOf, slicesBy, drop_duplicates, ddScan]
    | cons k0 kt =>
      have hsorted := sortedKeys_pairwise df pcols
      rw [hks] at hsorted
      obtain ⟨hhd, htl⟩ := List.pairwise_cons.mp hsorted
      have hzero : List.countP (fun k => decide (k < k0)) (k0 :: kt) = 0 :=
        sorted_countP_lt_eq_zero hhd (lt_irrefl k0)
      obtain ⟨t, ht⟩ : ∃ t, splitsOf (k0 :: kt) = 0 :: t := by
        rw [splitsOf, drop_duplicates_cons, List.map_cons, List.cons_append]
        exact ⟨_, by rw [hzero]⟩
      rw [ht]
      have hchain : List.Chain' (· ≤ ·) (0 :: t) := by
        have hc := splitsOf_chain_lt hsorted
        rw [ht] at hc
        exact hc.imp (fun a b h => le_of_lt h)
      have hlast : (0 :: t).getLast? = some (sort_values df pcols).rows.length := by
        have h1 := splitsOf_getLast_eq (k0 :: kt)
        rw [ht] at h1
        rw [h1]
        have h2 := congrArg List.length hks
        simp only [sortedKeys, List.length_map] at h2
        rw [← h2]
      rw [flatten_slicesBy t 0 _ hchain hlast, List.drop_zero]
  · intro k
    rw [partitionDivisions, mem_drop_duplicates]
    exact ((sort_values_perm df pcols).map (projKey df.cols pcols)).mem_iff
  · intro i hi
    have hi2 : i <
        (drop_duplicates ((sort_values df pcols).rows.map (projKey df.cols pcols))).length := by
      have hl := get_partition_groups_length df pcols
      rw [hl] at hi
      simpa [partitionDivisions, sortedKeys] using hi
    have hs : (((sort_values df pcols).rows).map (projKey df.cols pcols)).Pairwise (· ≤ ·) :=
      sortedKeys_pairwise df pcols
    constructor
    · rw [get_partition_groups_rows df pcols i hi]
      exact sorted_slice_ne_nil (projKey df.cols pcols) hs i hi2
    · intro r hr
      rw [get_partition_groups_rows df pcols i hi] at hr
      exact sorted_slice_mem_key (projKey df.cols pcols) hs ([] : Key) i hi2 r hr

/-- C10: for every dataframe and non-empty partition-column list, the computed
split offsets are strictly increasing and every group returned by
`_get_partition_groups` has at least one row, so the `write_to_dataset`
branch skipping a `None`/empty sub-dataframe is unreachable. -/
theorem partition_groups_nonempty (df : DataFrame) (pcols : List String)
    (hp : pcols ≠ []) :
    List.Chain' (· < ·) (partitionSplits df pcols) ∧
    ∀ g ∈ _get_partition_groups df pcols, g.rows ≠ [] := by
  constructor
  · rw [partitionSplits_eq_splitsOf]
    exact splitsOf_chain_lt (sortedKeys_pairwise df pcols)
  · intro g hg
    rw [_get_partition_groups] at hg
    obtain ⟨rs, hrs, rfl⟩ := List.mem_map.mp hg
    rw [partitionSplits_eq_splitsOf] at hrs
    obtain ⟨i, hlen, heq⟩ := List.getElem_of_mem hrs
    show rs ≠ []
    have hi2 : i <
        (drop_duplicates ((sort_values df pcols).rows.map (projKey df.cols pcols))).length := by
      rw [slicesBy_length, splitsOf_length] at hlen
      simpa [sortedKeys] using hlen
    have hgd : (slicesBy (splitsOf (sortedKeys df pcols))
        (sort_values df pcols).rows).getD i [] = rs := by
      rw [List.getD_eq_getElem _ _ hlen]
      exact heq
    rw [← hgd]
    exact sorted_slice_ne_nil (projKey df.cols pcols) (sortedKeys_pairwise df pcols) i hi2

/-! ### Lemmas about the writer layer -/

theorem sepJoin_pair (sep a b : String) : sepJoin sep [a, b] = a ++ sep ++ b := rfl

theorem hasCategoricalCols_congr (df1 df2 : DataFrame) (hc : df1.cols = df2.cols)
    (hd : df1.dtypes = df2.dtypes) :
    hasCategoricalCols df1 = hasCategoricalCols df2 := by
  simp [hasCategoricalCols, colDtype, hc, hd]

theorem dropColumns_cols (df : DataFrame) (pcols : List String) :
    (dropColumns df pcols).cols = df.cols.filter (fun c => decide (c ∉ pcols)) := rfl

theorem dropColumns_dtypes (df : DataFrame) (pcols : List String) :
    (dropColumns df pcols).dtypes =
      (df.cols.zip df.dtypes).filterMap
        (fun p => if p.1 ∈ pcols then none else some p.2) := rfl

theorem get_partition_groups_mem_shape (df : DataFrame) (pcols : List String) :
    ∀ g ∈ _get_partition_groups df pcols, g.cols = df.cols ∧ g.dtypes = df.dtypes := by
  intro g hg
  rw [_get_partition_groups] at hg
  obtain ⟨rs, _, rfl⟩ := List.mem_map.mp hg
  exact ⟨rfl, rfl⟩

theorem groups_rows_ne_nil (df : DataFrame) (pcols : List String) :
    ∀ g ∈ _get_partition_groups df pcols, g.rows ≠ [] := by
  intro g hg
  rw [_get_partition_groups] at hg
  obtain ⟨rs, hrs, rfl⟩ := List.mem_map.mp hg
  rw [partitionSplits_eq_splitsOf] at hrs
  obtain ⟨i, hlen, heq⟩ := List.getElem_of_mem hrs
  show rs ≠ []
  have hi2 : i <
      (drop_duplicates ((sort_values df pcols).rows.map (projKey df.cols pcols))).length := by
    rw [slicesBy_length, splitsOf_length] at hlen
    simpa [sortedKeys] using hlen
  have hgd : (slicesBy (splitsOf (sortedKeys df pcols))
      (sort_values df pcols).rows).getD i [] = rs := by
    rw [List.getD_eq_getElem _ _ hlen]
    exact heq
  rw [← hgd]
  exact sorted_slice_ne_nil (projKey df.cols pcols) (sortedKeys_pairwise df pcols) i hi2

theorem get_partition_groups_ne_nil (df : DataFrame) (pcols : List String)
    (hr : df.rows ≠ []) : _get_partition_groups df pcols ≠ [] := by
  intro hnil
  have hlen := get_partition_groups_length df pcols
  rw [hnil] at hlen
  have hlen2 : (sortedKeys df pcols).length = df.rows.length := by
    simp [sortedKeys, (sort_values_perm df pcols).length_eq]
  cases hks : sortedKeys df pcols with
  | nil =>
    rw [hks] at hlen2
    exact hr (List.length_eq_zero.mp hlen2.symm)
  | cons k0 kt =>
    rw [partitionDivisions, hks, drop_duplicates_cons] at hlen
    simp at hlen

theorem writeGroups_ok (pcols : List String) (root_path sep : String)
    (guids : Nat → String) (rm : Bool) :
    ∀ gs : List (Nat × DataFrame),
      (∀ p ∈ gs, (p.2 : DataFrame).rows ≠ []) →
      (∀ p ∈ gs, hasCategoricalCols (dropColumns p.2 pcols) = false) →
      writeGroups pcols root_path sep guids rm gs =
        .ok (gs.map (fun p => writeEntry pcols root_path sep guids rm p.1 p.2)) := by
  intro gs
  induction gs with
  | nil => intro _ _; rfl
  | cons p rest ih =>
    intro hne hnc
    obtain ⟨i, sub_df⟩ := p
    have hne1 : ¬ sub_df.rows = [] := hne (i, sub_df) (List.mem_cons_self _ _)
    have hnc1 : hasCategoricalCols (dropColumns sub_df pcols) = false :=
      hnc (i, sub_df) (List.mem_cons_self _ _)
    have hrest := ih (fun q hq => hne q (List.mem_cons_of_mem _ hq))
      (fun q hq => hnc q (List.mem_cons_of_mem _ hq))
    have h1 : ∀ (pth : String) (mf : Option String),
        to_parquet_single (dropColumns sub_df pcols) pth mf =
          .ok (⟨pth, dropColumns sub_df pcols, mf⟩,
            libWriteParquet (dropColumns sub_df pcols) mf) := by
      intro pth mf
      have hc : ¬ (hasCategoricalCols (dropColumns sub_df pcols) = true) := by
        simp [hnc1]
      rw [to_parquet_single, if_neg hc]
    simp only [writeGroups, if_neg hne1, h1, hrest, List.map_cons]
    rfl

theorem writeGroups_cons_error (pcols : List String) (root_path sep : String)
    (guids : Nat → String) (rm : Bool) (i : Nat) (sub_df : DataFrame)
    (rest : List (Nat × DataFrame))
    (hne : sub_df.rows ≠ [])
    (hcat : hasCategoricalCols (dropColumns sub_df pcols) = true) :
    writeGroups pcols root_path sep guids rm ((i, sub_df) :: rest) =
      .error .UnsupportedCategoricalType := by
  have h1 : ∀ (pth : String) (mf : Option String),
      to_parquet_single (dropColumns sub_df pcols) pth mf =
        .error .UnsupportedCategoricalType := by
    intro pth mf
    rw [to_parquet_single, if_pos hcat]
  simp only [writeGroups, if_neg hne, h1]

theorem writeEntry_snd_schema (pcols : List String) (root_path sep : String)
    (guids : Nat → String) (rm : Bool) (i : Nat) (sub_df : DataFrame) :
    (writeEntry pcols root_path sep guids rm i sub_df).2.schema =
      (dropColumns sub_df pcols).cols.zip (dropColumns sub_df pcols).dtypes := rfl

theorem merge_ok_of_eq_schema (m0 : FileMetadata) (ms : List FileMetadata)
    (h : ∀ m ∈ ms, m.schema = m0.schema) :
    ∃ mm, merge_filemetadata (m0 :: ms) = .ok mm := by
  rw [merge_filemetadata, if_pos]
  · exact ⟨_, rfl⟩
  · simp only [List.all_eq_true, decide_eq_true_eq]
    exact h

theorem metadata_merge_step_no_error (ms : List FileMetadata)
    (h : ∀ m1 ∈ ms, ∀ m2 ∈ ms, (m1 : FileMetadata).schema = m2.schema) :
    metadata_merge_step ms = none ∨ ∃ mm, metadata_merge_step ms = some (.ok mm) := by
  cases ms with
  | nil => left; rfl
  | cons m0 rest =>
    right
    rw [metadata_merge_step, if_pos (by simp)]
    by_cases hlen : 1 < (m0 :: rest).length
    · rw [if_pos hlen]
      obtain ⟨mm, hmm⟩ := merge_ok_of_eq_schema m0 rest
        (fun m hm => h m (List.mem_cons_of_mem _ hm) m0 (List.mem_cons_self _ _))
      refine ⟨mm, ?_⟩
      rw [merge_parquet_filemetadata, hmm]
    · rw [if_neg hlen]
      exact ⟨_, rfl⟩

theorem write_to_dataset_ok (df : DataFrame) (root_path sep : String)
    (pcols : List String) (guids : Nat → String) (pi rm : Bool)
    (hp : pcols ≠ [])
    (hd : df.cols.filter (fun c => decide (c ∉ pcols)) ≠ [])
    (hnc : hasCategoricalCols (dropColumns df pcols) = false) :
    ∃ m : Option FileMetadata,
      write_to_dataset df root_path pcols sep guids pi rm =
        .ok ⟨((_get_partition_groups df pcols pi).enum.map
          (fun p => writeEntry pcols root_path sep guids rm p.1 p.2)).map Prod.fst, m⟩ := by
  have hshape := get_partition_groups_mem_shape df pcols
  have hmemsnd : ∀ p ∈ (_get_partition_groups df pcols pi).enum,
      (p : Nat × DataFrame).2 ∈ _get_partition_groups df pcols pi := by
    intro p hp2
    have : (p : Nat × DataFrame).2 ∈ (_get_partition_groups df pcols pi).enum.map Prod.snd :=
      List.mem_map_of_mem Prod.snd hp2
    rwa [List.enum_map_snd] at this
  have hnc2 : ∀ p ∈ (_get_partition_groups df pcols pi).enum,
      hasCategoricalCols (dropColumns (p : Nat × DataFrame).2 pcols) = false := by
    intro p hp2
    obtain ⟨hc, hdt⟩ := hshape _ (hmemsnd p hp2)
    rw [hasCategoricalCols_congr (dropColumns p.2 pcols) (dropColumns df pcols)
      (by simp [dropColumns_cols, hc]) (by simp [dropColumns_dtypes, hc, hdt])]
    exact hnc
  have hne2 : ∀ p ∈ (_get_partition_groups df pcols pi).enum,
      (p : Nat × DataFrame).2.rows ≠ [] := by
    intro p hp2
    exact groups_rows_ne_nil df pcols _ (hmemsnd p hp2)
  have hgok := writeGroups_ok pcols root_path sep guids rm
    (_get_partition_groups df pcols pi).enum hne2 hnc2
  have hsch : ∀ m1 ∈ (if rm then
        ((_get_partition_groups df pcols pi).enum.map
          (fun p => writeEntry pcols root_path sep guids rm p.1 p.2)).map (fun r => r.2)
      else []), ∀ m2 ∈ (if rm then
        ((_get_partition_groups df pcols pi).enum.map
          (fun p => writeEntry pcols root_path sep guids rm p.1 p.2)).map (fun r => r.2)
      else []), (m1 : FileMetadata).schema = m2.schema := by
    intro m1 hm1 m2 hm2
    cases rm with
    | false => simp at hm1
    | true =>
      simp only [if_true] at hm1 hm2
      rw [List.map_map] at hm1 hm2
      obtain ⟨p1, hp1, rfl⟩ := List.mem_map.mp hm1
      obtain ⟨p2, hp2, rfl⟩ := List.mem_map.mp hm2
      obtain ⟨hc1, hd1⟩ := hshape _ (hmemsnd p1 hp1)
      obtain ⟨hc2, hd2⟩ := hshape _ (hmemsnd p2 hp2)
      show (writeEntry pcols root_path sep guids true p1.1 p1.2).2.schema =
        (writeEntry pcols root_path sep guids true p2.1 p2.2).2.schema
      rw [writeEntry_snd_schema, writeEntry_snd_schema]
      simp [dropColumns_cols, dropColumns_dtypes, hc1, hd1, hc2, hd2]
  rw [write_to_dataset, if_pos hp, if_neg hd, hgok]
  dsimp only
  rcases metadata_merge_step_no_error _ hsch with hnone | ⟨mm, hsome⟩
  · rw [hnone]
    exact ⟨none, rfl⟩
  · rw [hsome]
    exact ⟨some mm, rfl⟩

theorem get_partition_groups_preserve_index (df : DataFrame) (pcols : List String)
    (pi : Bool) : _get_partition_groups df pcols pi = _get_partition_groups df pcols := rfl

theorem group_first_key (df : DataFrame) (pcols : List String) (i : Nat)
    (hi : i < (_get_partition_groups df pcols).length) :
    projKey df.cols pcols
      (((_get_partition_groups df pcols).get ⟨i, hi⟩).rows.headD []) =
      (partitionDivisions df pcols).getD i [] := by
  have hi2 : i <
      (drop_duplicates ((sort_values df pcols).rows.map (projKey df.cols pcols))).length := by
    have hi3 := hi
    rw [get_partition_groups_length df pcols] at hi3
    simpa [partitionDivisions, sortedKeys] using hi3
  have hne := groups_rows_ne_nil df pcols _ (List.get_mem (_get_partition_groups df pcols) i hi)
  cases hrows : ((_get_partition_groups df pcols).get ⟨i, hi⟩).rows with
  | nil => exact absurd hrows hne
  | cons r0 rr =>
    have hmem : r0 ∈ ((_get_partition_groups df pcols).get ⟨i, hi⟩).rows := by
      rw [hrows]; exact List.mem_cons_self _ _
    have hkey := sorted_slice_mem_key (projKey df.cols pcols) (sortedKeys_pairwise df pcols)
      ([] : Key) i hi2 r0 (by
        rw [← sortedKeys_def, ← get_partition_groups_rows df pcols i hi]
        exact hmem)
    simpa using hkey

/-- C2: for every table and non-empty partition-column list — under the
well-formedness conditions for a successful partitioned write: at least one
data column remains after dropping the partition columns (otherwise
`NoDataColumns`, claim C6) and no categorical column remains among the data
columns (otherwise `UnsupportedCategoricalType`, claim C4) — `write_to_dataset`
writes exactly one file per distinct partition-key combination present in the
data: as many files as distinct keys, the i-th file placed at
`root/col1=val1/.../<guid>.parquet` whose `col=value` segments are joined in
partition-column order from the i-th distinct key, and the dataframe written
to each file contains none of the partition columns. -/
theorem write_to_dataset_one_file_per_key (df : DataFrame) (root_path sep : String)
    (pcols : List String) (guids : Nat → String) (pi rm : Bool)
    (hp : pcols ≠ [])
    (hd : df.cols.filter (fun c => decide (c ∉ pcols)) ≠ [])
    (hnc : hasCategoricalCols (dropColumns df pcols) = false) :
    ∃ res : WriteResult,
      write_to_dataset df root_path pcols sep guids pi rm = .ok res ∧
      res.files.length = (partitionDivisions df pcols).length ∧
      (partitionDivisions df pcols).Nodup ∧
      (∀ k, k ∈ partitionDivisions df pcols ↔ k ∈ df.rows.map (projKey df.cols pcols)) ∧
      (∀ i, i < res.files.length →
        (res.files.getD i ⟨"", ⟨[], [], []⟩, none⟩).path =
          sepJoin sep [sepJoin sep [root_path,
            sepJoin sep ((pcols.zip ((partitionDivisions df pcols).getD i [])).map
              (fun p => p.1 ++ "=" ++ p.2.text))], guids i ++ ".parquet"] ∧
        (res.files.getD i ⟨"", ⟨[], [], []⟩, none⟩).df.cols =
          df.cols.filter (fun c => decide (c ∉ pcols)) ∧
        (∀ c ∈ (res.files.getD i ⟨"", ⟨[], [], []⟩, none⟩).df.cols, c ∉ pcols)) := by
  obtain ⟨m, hw⟩ := write_to_dataset_ok df root_path sep pcols guids pi rm hp hd hnc
  rw [get_partition_groups_preserve_index] at hw
  refine ⟨_, hw, ?_, drop_duplicates_nodup _, ?_, ?_⟩
  · simp only [List.length_map, List.enum_length]
    exact get_partition_groups_length df pcols
  · intro k
    rw [partitionDivisions, mem_drop_duplicates]
    exact ((sort_values_perm df pcols).map (projKey df.cols pcols)).mem_iff
  · intro i hi
    have hlenE : (((_get_partition_groups df pcols).enum.map
        (fun p => writeEntry pcols root_path sep guids rm p.1 p.2)).map Prod.fst).length =
        (_get_partition_groups df pcols).length := by
      rw [List.length_map, List.length_map, List.enum_length]
    have hig : i < (_get_partition_groups df pcols).length := by
      rw [← hlenE]; exact hi
    have hshape := get_partition_groups_mem_shape df pcols _
      (List.get_mem (_get_partition_groups df pcols) i hig)
    have hfget : (((_get_partition_groups df pcols).enum.map
        (fun p => writeEntry pcols root_path sep guids rm p.1 p.2)).map Prod.fst).getD i
          ⟨"", ⟨[], [], []⟩, none⟩ =
        (writeEntry pcols root_path sep guids rm i
          ((_get_partition_groups df pcols).get ⟨i, hig⟩)).1 := by
      rw [List.getD_eq_getElem _ _ (by rw [hlenE]; exact hig)]
      rw [List.getElem_map, List.getElem_map, List.getElem_enum, List.get_eq_getElem]
    have hkeys : pcols.map
        (fun c => ((((_get_partition_groups df pcols).get ⟨i, hig⟩).rows.headD []).getD
          (List.indexOf c ((_get_partition_groups df pcols).get ⟨i, hig⟩).cols) PVal.nullV)) =
        (partitionDivisions df pcols).getD i [] := by
      rw [hshape.1]
      exact group_first_key df pcols i hig
    dsimp only
    rw [hfget]
    refine ⟨?_, ?_, ?_⟩
    · rw [writeEntry]
      dsimp only
      rw [hkeys]
    · rw [writeEntry]
      dsimp only
      rw [dropColumns_cols, hshape.1]
    · rw [writeEntry]
      dsimp only
      rw [dropColumns_cols, hshape.1]
      intro c hc
      have hmf := List.mem_filter.mp hc
      simpa using hmf.2

/-- C5: the metadata-merge step at the end of `write_to_dataset` returns a
single-element metadata list's element unchanged, without invoking the
merger (`parquet.py` lines 141-146). -/
theorem metadata_merge_step_singleton (m : FileMetadata) :
    metadata_merge_step [m] = some (.ok m) := rfl

/-- C6: for every table and non-empty partition-column list such that dropping
the partition columns leaves zero columns, `write_to_dataset` fails with
`NoDataColumns` (the `ValueError` of `parquet.py` line 89); the check precedes
the group loop, so no file is written. -/
theorem write_to_dataset_no_data_columns (df : DataFrame) (root_path sep : String)
    (pcols : List String) (guids : Nat → String) (pi rm : Bool)
    (hp : pcols ≠ [])
    (hd : df.cols.filter (fun c => decide (c ∉ pcols)) = []) :
    write_to_dataset df root_path pcols sep guids pi rm = .error .NoDataColumns := by
  rw [write_to_dataset, if_pos hp, if_pos hd]

/-- C7: in a partitioned write with metadata requested, `write_to_dataset`
writes exactly the per-group entries, and the file path embedded in each
group's returned `FileMetadata` is relative to the dataset root: it equals the
group's `col=value` subdirectory path joined with the generated file name,
while the file's actual location is the root path joined with that relative
path — the embedded path is not prefixed by `root_path`. -/
theorem write_to_dataset_metadata_relative_paths (df : DataFrame) (root_path sep : String)
    (pcols : List String) (guids : Nat → String) (pi : Bool)
    (hp : pcols ≠ [])
    (hd : df.cols.filter (fun c => decide (c ∉ pcols)) ≠ [])
    (hnc : hasCategoricalCols (dropColumns df pcols) = false) :
    (∃ m, write_to_dataset df root_path pcols sep guids pi true =
      .ok ⟨((_get_partition_groups df pcols).enum.map
        (fun p => writeEntry pcols root_path sep guids true p.1 p.2)).map Prod.fst, m⟩) ∧
    ∀ i (hi : i < (_get_partition_groups df pcols).length),
      (writeEntry pcols root_path sep guids true i
          ((_get_partition_groups df pcols).get ⟨i, hi⟩)).2.metadataFilePath =
        some (sepJoin sep
          [sepJoin sep ((pcols.zip ((partitionDivisions df pcols).getD i [])).map
            (fun p => p.1 ++ "=" ++ p.2.text)), guids i ++ ".parquet"]) ∧
      (writeEntry pcols root_path sep guids true i
          ((_get_partition_groups df pcols).get ⟨i, hi⟩)).1.metadataFilePath =
        (writeEntry pcols root_path sep guids true i
          ((_get_partition_groups df pcols).get ⟨i, hi⟩)).2.metadataFilePath ∧
      (writeEntry pcols root_path sep guids true i
          ((_get_partition_groups df pcols).get ⟨i, hi⟩)).1.path =
        root_path ++ sep ++ sepJoin sep
          [sepJoin sep ((pcols.zip ((partitionDivisions df pcols).getD i [])).map
            (fun p => p.1 ++ "=" ++ p.2.text)), guids i ++ ".parquet"] := by
  constructor
  · obtain ⟨m, hw⟩ := write_to_dataset_ok df root_path sep pcols guids pi true hp hd hnc
    rw [get_partition_groups_preserve_index] at hw
    exact ⟨m, hw⟩
  · intro i hi
    have hshape := get_partition_groups_mem_shape df pcols _
      (List.get_mem (_get_partition_groups df pcols) i hi)
    have hkeys : pcols.map
        (fun c => ((((_get_partition_groups df pcols).get ⟨i, hi⟩).rows.headD []).getD
          (List.indexOf c ((_get_partition_groups df pcols).get ⟨i, hi⟩).cols) PVal.nullV)) =
        (partitionDivisions df pcols).getD i [] := by
      rw [hshape.1]
      exact group_first_key df pcols i hi
    refine ⟨?_, rfl, ?_⟩
    · rw [writeEntry]
      dsimp only
      rw [hkeys]
      rfl
    · rw [writeEntry]
      dsimp only
      rw [hkeys, sepJoin_pair, sepJoin_pair, sepJoin_pair]
      simp [String.append_assoc]

/-- C4 (amended): on the accelerated path `to_parquet` fails with
`UnsupportedCategoricalType` exactly where a categorical column would actually
be written as a data column: with no partition columns, whenever the table has
a `category`-dtype column; with partition columns, whenever the table is
non-empty, data columns remain, and a `category` column survives the dropping
of the partition columns.  A categorical column serving only as a partition
column is dropped before writing and raises no error (counterexample
`to_parquet_categorical_partition_col_ok`). -/
theorem to_parquet_categorical_rejected (df : DataFrame) (path : String)
    (pcols : List String) (index rm : Bool) (mfp : Option String)
    (sep : String) (guids : Nat → String)
    (paWrite : DataFrame → String → List String → WriteResult)
    (h : (pcols = [] ∧ hasCategoricalCols df = true) ∨
      (pcols ≠ [] ∧ df.rows ≠ [] ∧
        df.cols.filter (fun c => decide (c ∉ pcols)) ≠ [] ∧
        hasCategoricalCols (dropColumns df pcols) = true)) :
    to_parquet df path "cudf" pcols index rm mfp sep guids paWrite =
      .error .UnsupportedCategoricalType := by
  rcases h with ⟨hp0, hcat⟩ | ⟨hp, hrows, hdata, hcat⟩
  · rw [to_parquet, if_pos rfl, if_neg (by simp [hp0]), to_parquet_single, if_pos hcat]
  · have hgne := get_partition_groups_ne_nil df pcols hrows
    have hwtd : write_to_dataset df path pcols sep guids index rm =
        .error .UnsupportedCategoricalType := by
      rw [write_to_dataset, if_pos hp, if_neg hdata, get_partition_groups_preserve_index]
      cases hgs : _get_partition_groups df pcols with
      | nil => exact absurd hgs hgne
      | cons g0 gr =>
        have hg0mem : g0 ∈ _get_partition_groups df pcols := by
          rw [hgs]; exact List.mem_cons_self _ _
        have hg0ne : g0.rows ≠ [] := groups_rows_ne_nil df pcols g0 hg0mem
        obtain ⟨hc0, hd0⟩ := get_partition_groups_mem_shape df pcols g0 hg0mem
        have hcat0 : hasCategoricalCols (dropColumns g0 pcols) = true := by
          rw [hasCategoricalCols_congr (dropColumns g0 pcols) (dropColumns df pcols)
            (by simp [dropColumns_cols, hc0]) (by simp [dropColumns_dtypes, hc0, hd0])]
          exact hcat
        have henum : (g0 :: gr).enum = (0, g0) :: List.enumFrom 1 gr := rfl
        rw [henum, writeGroups_cons_error pcols path sep guids rm 0 g0 _ hg0ne hcat0]
    rw [to_parquet, if_pos rfl, if_pos hp, hwtd]

/-- C4 counterexample: a table whose only categorical column is the partition
column itself is written successfully by the accelerated path — `to_parquet`
with `engine="cudf"` succeeds instead of failing with
`UnsupportedCategoricalType`, refuting the claim for tables whose categorical
columns are all partition columns. -/
theorem to_parquet_categorical_partition_col_ok :
    (to_parquet
      ⟨["id", "cat"], [Dtype.int64, Dtype.category],
        [[PVal.intV 1, PVal.strV "a"], [PVal.intV 2, PVal.strV "b"]]⟩
      "root" "cudf" ["cat"] false false none "/" (fun i => "f" ++ toString i)
      (fun _ _ _ => ⟨[], none⟩)).isOk = true := by decide

/-- C3 (code bug, evaluated at the failing input): on the accelerated
partitioned path with metadata requested, `write_to_dataset` does produce the
merged `FileMetadata`, but `to_parquet` — through which the claim routes the
partitioned write — discards it: the bare `return` of `parquet.py` line 227
makes `to_parquet` yield `None` while writing the very same files. -/
theorem to_parquet_partition_metadata_dropped :
    ((to_parquet
        ⟨["id", "grp"], [Dtype.int64, Dtype.utf8],
          [[PVal.intV 1, PVal.strV "x"], [PVal.intV 2, PVal.strV "y"],
            [PVal.intV 3, PVal.strV "x"]]⟩
        "root" "cudf" ["grp"] false true none "/" (fun i => "f" ++ toString i)
        (fun _ _ _ => ⟨[], none⟩)).map (fun r => r.meta) = .ok none) ∧
    ((write_to_dataset
        ⟨["id", "grp"], [Dtype.int64, Dtype.utf8],
          [[PVal.intV 1, PVal.strV "x"], [PVal.intV 2, PVal.strV "y"],
            [PVal.intV 3, PVal.strV "x"]]⟩
        "root" ["grp"] "/" (fun i => "f" ++ toString i) false true).map
      (fun r => r.meta.isSome) = .ok true) ∧
    ((to_parquet
        ⟨["id", "grp"], [Dtype.int64, Dtype.utf8],
          [[PVal.intV 1, PVal.strV "x"], [PVal.intV 2, PVal.strV "y"],
            [PVal.intV 3, PVal.strV "x"]]⟩
        "root" "cudf" ["grp"] false true none "/" (fun i => "f" ++ toString i)
        (fun _ _ _ => ⟨[], none⟩)).map (fun r => r.files) =
      (write_to_dataset
        ⟨["id", "grp"], [Dtype.int64, Dtype.utf8],
          [[PVal.intV 1, PVal.strV "x"], [PVal.intV 2, PVal.strV "y"],
            [PVal.intV 3, PVal.strV "x"]]⟩
        "root" ["grp"] "/" (fun i => "f" ++ toString i) false true).map
        (fun r => r.files)) := by
  decide

/-- C9: for every engine other than "cudf", the result of `read_parquet`
depends only on the file path/buffer, the `columns` argument, and the extra
positional/keyword arguments: two calls differing only in `row_group`,
`row_group_count`, `skip_rows`, `num_rows`, `strings_to_categorical` or
`use_pandas_metadata` return equal results, because the CPU-fallback branch
does not forward those parameters. -/
theorem read_parquet_fallback_ignores_params {A : Type}
    (gfb : String → List (String × String) → String × Option String)
    (libRead : String → Option (List String) → Option Nat → Option Nat →
      Option Nat → Option Nat → Bool → Bool → DataFrame)
    (paRead : String → Option (List String) → List String →
      List (String × String) → A)
    (from_arrow : A → DataFrame)
    (path engine : String) (columns : Option (List String))
    (rg1 rgc1 sr1 nr1 rg2 rgc2 sr2 nr2 : Option Nat)
    (s2c1 upm1 s2c2 upm2 : Bool) (args : List String)
    (kwargs : List (String × String))
    (he : engine ≠ "cudf") :
    read_parquet gfb libRead paRead from_arrow path engine columns
        rg1 rgc1 sr1 nr1 s2c1 upm1 args kwargs =
      read_parquet gfb libRead paRead from_arrow path engine columns
        rg2 rgc2 sr2 nr2 s2c2 upm2 args kwargs := by
  rw [read_parquet, read_parquet]
  simp [he]

/-! ### Lemmas about the spec-modelled codec -/

theorem getD_indexOf {β : Type} [DecidableEq β] {x : β} {l : List β} (h : x ∈ l)
    (dflt : β) : l.getD (List.indexOf x l) dflt = x := by
  have hlt : List.indexOf x l < l.length := List.indexOf_lt_length.mpr h
  rw [List.getD_eq_getElem _ _ hlt]
  exact List.getElem_indexOf hlt

theorem decodeChunk_encodeChunk (cells : List PVal) :
    decodeChunk (encodeChunk cells) = cells := by
  rw [encodeChunk]
  by_cases h : 2 * (drop_duplicates cells).length < cells.length
  · rw [if_pos h, decodeChunk, List.map_map]
    have hcong : ∀ c ∈ cells,
        ((fun i => (drop_duplicates cells).getD i PVal.nullV) ∘
          (fun c => List.indexOf c (drop_duplicates cells))) c = id c :=
      fun c hc => getD_indexOf (mem_drop_duplicates.mpr hc) _
    rw [List.map_congr_left hcong, List.map_id]
  · rw [if_neg h, decodeChunk]

theorem writeRowGroups_column :
    ∀ (sizes : List Nat) (t : PTable) (j : Nat), j < t.length →
      ((writeRowGroups sizes t).map
        (fun rg => decodeChunk (rg.getD j (Chunk.plain [])))).flatten =
        (t.getD j ⟨"", Dtype.int64, []⟩).cells.take sizes.sum := by
  intro sizes
  induction sizes with
  | nil =>
    intro t j hj
    simp [writeRowGroups]
  | cons s ss ih =>
    intro t j hj
    rw [writeRowGroups, List.map_cons, List.flatten_cons]
    have h1 : (t.map (fun c => encodeChunk (c.cells.take s))).getD j (Chunk.plain []) =
        encodeChunk ((t.getD j ⟨"", Dtype.int64, []⟩).cells.take s) := by
      rw [List.getD_eq_getElem _ _ (by simpa using hj), List.getElem_map,
        List.getD_eq_getElem _ _ hj]
    rw [h1, decodeChunk_encodeChunk]
    have h2 := ih (t.map (fun c => (⟨c.name, c.dtype, c.cells.drop s⟩ : PColumn))) j
      (by simpa using hj)
    rw [h2]
    have h3 : ((t.map (fun c => (⟨c.name, c.dtype, c.cells.drop s⟩ : PColumn))).getD j
        ⟨"", Dtype.int64, []⟩).cells = (t.getD j ⟨"", Dtype.int64, []⟩).cells.drop s := by
      rw [List.getD_eq_getElem _ _ (by simpa using hj), List.getElem_map,
        List.getD_eq_getElem _ _ hj]
    rw [h3, ← List.take_add, List.sum_cons]

/-- C8 (spec-modelled codec): for every table whose columns all carry `n` rows
and every split of those `n` rows into row-group sizes, reading back a written
file reproduces the table exactly — schema (names and dtypes), row order and
values. -/
theorem readFile_writeFile (t : PTable) (sizes : List Nat) (n : Nat)
    (hcells : ∀ c ∈ t, (c : PColumn).cells.length = n) (hsum : sizes.sum = n) :
    readFile (writeFile t sizes) = t := by
  rw [readFile, writeFile]
  dsimp only
  apply List.ext_getElem
  · simp
  · intro i h1 h2
    rw [List.getElem_map, List.getElem_range]
    have hsl : (t.map (fun c => (c.name, c.dtype))).getD i ("", Dtype.int64) =
        ((t.getD i ⟨"", Dtype.int64, []⟩).name, (t.getD i ⟨"", Dtype.int64, []⟩).dtype) := by
      rw [List.getD_eq_getElem _ _ (by simpa using h2), List.getElem_map,
        List.getD_eq_getElem _ _ h2]
    have hcol := writeRowGroups_column sizes t i h2
    rw [hsl, hcol, hsum]
    have htake : (t.getD i ⟨"", Dtype.int64, []⟩).cells.take n =
        (t.getD i ⟨"", Dtype.int64, []⟩).cells := by
      apply List.take_of_length_le
      rw [List.getD_eq_getElem _ _ h2]
      exact le_of_eq (hcells _ (List.getElem_mem _))
    rw [htake, List.getD_eq_getElem _ _ h2]

/-! ### Witnesses: the hypothesis-bearing claim theorems applied at concrete inputs -/

/-- Witness for C1: `get_partition_groups_correct` at a concrete dataframe. -/
theorem get_partition_groups_correct_witness :
    (["grp"] : List String) ≠ [] ∧
    ((((_get_partition_groups ⟨["id", "grp"], [Dtype.int64, Dtype.utf8], [[PVal.intV 1, PVal.strV "x"], [PVal.intV 2, PVal.strV "y"], [PVal.intV 3, PVal.strV "x"]]⟩ ["grp"]).map DataFrame.rows).flatten =
        (sort_values ⟨["id", "grp"], [Dtype.int64, Dtype.utf8], [[PVal.intV 1, PVal.strV "x"], [PVal.intV 2, PVal.strV "y"], [PVal.intV 3, PVal.strV "x"]]⟩ ["grp"]).rows) ∧
      (_get_partition_groups ⟨["id", "grp"], [Dtype.int64, Dtype.utf8], [[PVal.intV 1, PVal.strV "x"], [PVal.intV 2, PVal.strV "y"], [PVal.intV 3, PVal.strV "x"]]⟩ ["grp"]).length =
        (partitionDivisions ⟨["id", "grp"], [Dtype.int64, Dtype.utf8], [[PVal.intV 1, PVal.strV "x"], [PVal.intV 2, PVal.strV "y"], [PVal.intV 3, PVal.strV "x"]]⟩ ["grp"]).length ∧
      (partitionDivisions ⟨["id", "grp"], [Dtype.int64, Dtype.utf8], [[PVal.intV 1, PVal.strV "x"], [PVal.intV 2, PVal.strV "y"], [PVal.intV 3, PVal.strV "x"]]⟩ ["grp"]).Nodup ∧
      (∀ k, k ∈ partitionDivisions ⟨["id", "grp"], [Dtype.int64, Dtype.utf8], [[PVal.intV 1, PVal.strV "x"], [PVal.intV 2, PVal.strV "y"], [PVal.intV 3, PVal.strV "x"]]⟩ ["grp"] ↔
        k ∈ (⟨["id", "grp"], [Dtype.int64, Dtype.utf8], [[PVal.intV 1, PVal.strV "x"], [PVal.intV 2, PVal.strV "y"], [PVal.intV 3, PVal.strV "x"]]⟩ : DataFrame).rows.map (projKey (⟨["id", "grp"], [Dtype.int64, Dtype.utf8], [[PVal.intV 1, PVal.strV "x"], [PVal.intV 2, PVal.strV "y"], [PVal.intV 3, PVal.strV "x"]]⟩ : DataFrame).cols ["grp"])) ∧
      (∀ i (hi : i < (_get_partition_groups ⟨["id", "grp"], [Dtype.int64, Dtype.utf8], [[PVal.intV 1, PVal.strV "x"], [PVal.intV 2, PVal.strV "y"], [PVal.intV 3, PVal.strV "x"]]⟩ ["grp"]).length),
        ((_get_partition_groups ⟨["id", "grp"], [Dtype.int64, Dtype.utf8], [[PVal.intV 1, PVal.strV "x"], [PVal.intV 2, PVal.strV "y"], [PVal.intV 3, PVal.strV "x"]]⟩ ["grp"]).get ⟨i, hi⟩).rows ≠ [] ∧
        ∀ r ∈ ((_get_partition_groups ⟨["id", "grp"], [Dtype.int64, Dtype.utf8], [[PVal.intV 1, PVal.strV "x"], [PVal.intV 2, PVal.strV "y"], [PVal.intV 3, PVal.strV "x"]]⟩ ["grp"]).get ⟨i, hi⟩).rows,
          projKey (⟨["id", "grp"], [Dtype.int64, Dtype.utf8], [[PVal.intV 1, PVal.strV "x"], [PVal.intV 2, PVal.strV "y"], [PVal.intV 3, PVal.strV "x"]]⟩ : DataFrame).cols ["grp"] r =
            (partitionDivisions ⟨["id", "grp"], [Dtype.int64, Dtype.utf8], [[PVal.intV 1, PVal.strV "x"], [PVal.intV 2, PVal.strV "y"], [PVal.intV 3, PVal.strV "x"]]⟩ ["grp"]).getD i [])) :=
  ⟨by decide, get_partition_groups_correct _ _ (by decide)⟩

/-- Witness for C10: `partition_groups_nonempty` at a concrete dataframe. -/
theorem partition_groups_nonempty_witness :
    (["grp"] : List String) ≠ [] ∧
    (List.Chain' (· < ·) (partitionSplits ⟨["id", "grp"], [Dtype.int64, Dtype.utf8], [[PVal.intV 1, PVal.strV "x"], [PVal.intV 2, PVal.strV "y"], [PVal.intV 3, PVal.strV "x"]]⟩ ["grp"]) ∧
      ∀ g ∈ _get_partition_groups ⟨["id", "grp"], [Dtype.int64, Dtype.utf8], [[PVal.intV 1, PVal.strV "x"], [PVal.intV 2, PVal.strV "y"], [PVal.intV 3, PVal.strV "x"]]⟩ ["grp"], g.rows ≠ []) :=
  ⟨by decide, partition_groups_nonempty _ _ (by decide)⟩

/-- Witness for C2: `write_to_dataset_one_file_per_key` at a concrete input. -/
theorem write_to_dataset_one_file_per_key_witness :
    ((["grp"] : List String) ≠ [] ∧
      (⟨["id", "grp"], [Dtype.int64, Dtype.utf8], [[PVal.intV 1, PVal.strV "x"], [PVal.intV 2, PVal.strV "y"], [PVal.intV 3, PVal.strV "x"]]⟩ : DataFrame).cols.filter (fun c => decide (c ∉ (["grp"] : List String))) ≠ [] ∧
      hasCategoricalCols (dropColumns ⟨["id", "grp"], [Dtype.int64, Dtype.utf8], [[PVal.intV 1, PVal.strV "x"], [PVal.intV 2, PVal.strV "y"], [PVal.intV 3, PVal.strV "x"]]⟩ ["grp"]) = false) ∧
    (∃ res : WriteResult,
      write_to_dataset ⟨["id", "grp"], [Dtype.int64, Dtype.utf8], [[PVal.intV 1, PVal.strV "x"], [PVal.intV 2, PVal.strV "y"], [PVal.intV 3, PVal.strV "x"]]⟩ "out" ["grp"] "/" (fun i => "f" ++ toString i) false false = .ok res ∧
      res.files.length = (partitionDivisions ⟨["id", "grp"], [Dtype.int64, Dtype.utf8], [[PVal.intV 1, PVal.strV "x"], [PVal.intV 2, PVal.strV "y"], [PVal.intV 3, PVal.strV "x"]]⟩ ["grp"]).length ∧
      (partitionDivisions ⟨["id", "grp"], [Dtype.int64, Dtype.utf8], [[PVal.intV 1, PVal.strV "x"], [PVal.intV 2, PVal.strV "y"], [PVal.intV 3, PVal.strV "x"]]⟩ ["grp"]).Nodup ∧
      (∀ k, k ∈ partitionDivisions ⟨["id", "grp"], [Dtype.int64, Dtype.utf8], [[PVal.intV 1, PVal.strV "x"], [PVal.intV 2, PVal.strV "y"], [PVal.intV 3, PVal.strV "x"]]⟩ ["grp"] ↔
        k ∈ (⟨["id", "grp"], [Dtype.int64, Dtype.utf8], [[PVal.intV 1, PVal.strV "x"], [PVal.intV 2, PVal.strV "y"], [PVal.intV 3, PVal.strV "x"]]⟩ : DataFrame).rows.map (projKey (⟨["id", "grp"], [Dtype.int64, Dtype.utf8], [[PVal.intV 1, PVal.strV "x"], [PVal.intV 2, PVal.strV "y"], [PVal.intV 3, PVal.strV "x"]]⟩ : DataFrame).cols ["grp"])) ∧
      (∀ i, i < res.files.length →
        (res.files.getD i ⟨"", ⟨[], [], []⟩, none⟩).path =
          sepJoin "/" [sepJoin "/" ["out",
            sepJoin "/" (((["grp"] : List String).zip
                ((partitionDivisions ⟨["id", "grp"], [Dtype.int64, Dtype.utf8], [[PVal.intV 1, PVal.strV "x"], [PVal.intV 2, PVal.strV "y"], [PVal.intV 3, PVal.strV "x"]]⟩ ["grp"]).getD i [])).map
              (fun p => p.1 ++ "=" ++ p.2.text))], "f" ++ toString i ++ ".parquet"] ∧
        (res.files.getD i ⟨"", ⟨[], [], []⟩, none⟩).df.cols =
          (⟨["id", "grp"], [Dtype.int64, Dtype.utf8], [[PVal.intV 1, PVal.strV "x"], [PVal.intV 2, PVal.strV "y"], [PVal.intV 3, PVal.strV "x"]]⟩ : DataFrame).cols.filter (fun c => decide (c ∉ (["grp"] : List String))) ∧
        (∀ c ∈ (res.files.getD i ⟨"", ⟨[], [], []⟩, none⟩).df.cols,
          c ∉ (["grp"] : List String)))) :=
  ⟨⟨by decide, by decide, by decide⟩,
    write_to_dataset_one_file_per_key _ _ _ _ _ _ _ (by decide) (by decide) (by decide)⟩

/-- Witness for C6: `write_to_dataset_no_data_columns` at a concrete input. -/
theorem write_to_dataset_no_data_columns_witness :
    ((["grp"] : List String) ≠ [] ∧
      (⟨["grp"], [Dtype.utf8], [[PVal.strV "x"]]⟩ : DataFrame).cols.filter
        (fun c => decide (c ∉ (["grp"] : List String))) = []) ∧
    write_to_dataset ⟨["grp"], [Dtype.utf8], [[PVal.strV "x"]]⟩ "out" ["grp"] "/"
      (fun i => "f" ++ toString i) false false = .error .NoDataColumns :=
  ⟨⟨by decide, by decide⟩,
    write_to_dataset_no_data_columns _ _ _ _ _ _ _ (by decide) (by decide)⟩

/-- Witness for C7: `write_to_dataset_metadata_relative_paths` at a concrete
input. -/
theorem write_to_dataset_metadata_relative_paths_witness :
    ((["grp"] : List String) ≠ [] ∧
      (⟨["id", "grp"], [Dtype.int64, Dtype.utf8], [[PVal.intV 1, PVal.strV "x"], [PVal.intV 2, PVal.strV "y"], [PVal.intV 3, PVal.strV "x"]]⟩ : DataFrame).cols.filter (fun c => decide (c ∉ (["grp"] : List String))) ≠ [] ∧
      hasCategoricalCols (dropColumns ⟨["id", "grp"], [Dtype.int64, Dtype.utf8], [[PVal.intV 1, PVal.strV "x"], [PVal.intV 2, PVal.strV "y"], [PVal.intV 3, PVal.strV "x"]]⟩ ["grp"]) = false) ∧
    ((∃ m, write_to_dataset ⟨["id", "grp"], [Dtype.int64, Dtype.utf8], [[PVal.intV 1, PVal.strV "x"], [PVal.intV 2, PVal.strV "y"], [PVal.intV 3, PVal.strV "x"]]⟩ "out" ["grp"] "/" (fun i => "f" ++ toString i) false true =
      .ok ⟨((_get_partition_groups ⟨["id", "grp"], [Dtype.int64, Dtype.utf8], [[PVal.intV 1, PVal.strV "x"], [PVal.intV 2, PVal.strV "y"], [PVal.intV 3, PVal.strV "x"]]⟩ ["grp"]).enum.map
        (fun p => writeEntry ["grp"] "out" "/" (fun i => "f" ++ toString i) true p.1 p.2)).map Prod.fst, m⟩) ∧
    ∀ i (hi : i < (_get_partition_groups ⟨["id", "grp"], [Dtype.int64, Dtype.utf8], [[PVal.intV 1, PVal.strV "x"], [PVal.intV 2, PVal.strV "y"], [PVal.intV 3, PVal.strV "x"]]⟩ ["grp"]).length),
      (writeEntry ["grp"] "out" "/" (fun i => "f" ++ toString i) true i
          ((_get_partition_groups ⟨["id", "grp"], [Dtype.int64, Dtype.utf8], [[PVal.intV 1, PVal.strV "x"], [PVal.intV 2, PVal.strV "y"], [PVal.intV 3, PVal.strV "x"]]⟩ ["grp"]).get ⟨i, hi⟩)).2.metadataFilePath =
        some (sepJoin "/"
          [sepJoin "/" (((["grp"] : List String).zip
              ((partitionDivisions ⟨["id", "grp"], [Dtype.int64, Dtype.utf8], [[PVal.intV 1, PVal.strV "x"], [PVal.intV 2, PVal.strV "y"], [PVal.intV 3, PVal.strV "x"]]⟩ ["grp"]).getD i [])).map
            (fun p => p.1 ++ "=" ++ p.2.text)), "f" ++ toString i ++ ".parquet"]) ∧
      (writeEntry ["grp"] "out" "/" (fun i => "f" ++ toString i) true i
          ((_get_partition_groups ⟨["id", "grp"], [Dtype.int64, Dtype.utf8], [[PVal.intV 1, PVal.strV "x"], [PVal.intV 2, PVal.strV "y"], [PVal.intV 3, PVal.strV "x"]]⟩ ["grp"]).get ⟨i, hi⟩)).1.metadataFilePath =
        (writeEntry ["grp"] "out" "/" (fun i => "f" ++ toString i) true i
          ((_get_partition_groups ⟨["id", "grp"], [Dtype.int64, Dtype.utf8], [[PVal.intV 1, PVal.strV "x"], [PVal.intV 2, PVal.strV "y"], [PVal.intV 3, PVal.strV "x"]]⟩ ["grp"]).get ⟨i, hi⟩)).2.metadataFilePath ∧
      (writeEntry ["grp"] "out" "/" (fun i => "f" ++ toString i) true i
          ((_get_partition_groups ⟨["id", "grp"], [Dtype.int64, Dtype.utf8], [[PVal.intV 1, PVal.strV "x"], [PVal.intV 2, PVal.strV "y"], [PVal.intV 3, PVal.strV "x"]]⟩ ["grp"]).get ⟨i, hi⟩)).1.path =
        "out" ++ "/" ++ sepJoin "/"
          [sepJoin "/" (((["grp"] : List String).zip
              ((partitionDivisions ⟨["id", "grp"], [Dtype.int64, Dtype.utf8], [[PVal.intV 1, PVal.strV "x"], [PVal.intV 2, PVal.strV "y"], [PVal.intV 3, PVal.strV "x"]]⟩ ["grp"]).getD i [])).map
            (fun p => p.1 ++ "=" ++ p.2.text)), "f" ++ toString i ++ ".parquet"]) :=
  ⟨⟨by decide, by decide, by decide⟩,
    write_to_dataset_metadata_relative_paths _ _ _ _ _ _ (by decide) (by decide) (by decide)⟩

/-- Witness for C4 (amended): `to_parquet_categorical_rejected` at a concrete
table carrying a categorical data column, written with partition columns. -/
theorem to_parquet_categorical_rejected_witness :
    (((["grp"] : List String) = [] ∧ hasCategoricalCols ⟨["id", "c1", "grp"], [Dtype.int64, Dtype.category, Dtype.utf8], [[PVal.intV 1, PVal.strV "a", PVal.strV "x"]]⟩ = true) ∨
      ((["grp"] : List String) ≠ [] ∧ (⟨["id", "c1", "grp"], [Dtype.int64, Dtype.category, Dtype.utf8], [[PVal.intV 1, PVal.strV "a", PVal.strV "x"]]⟩ : DataFrame).rows ≠ [] ∧
        (⟨["id", "c1", "grp"], [Dtype.int64, Dtype.category, Dtype.utf8], [[PVal.intV 1, PVal.strV "a", PVal.strV "x"]]⟩ : DataFrame).cols.filter (fun c => decide (c ∉ (["grp"] : List String))) ≠ [] ∧
        hasCategoricalCols (dropColumns ⟨["id", "c1", "grp"], [Dtype.int64, Dtype.category, Dtype.utf8], [[PVal.intV 1, PVal.strV "a", PVal.strV "x"]]⟩ ["grp"]) = true)) ∧
    to_parquet ⟨["id", "c1", "grp"], [Dtype.int64, Dtype.category, Dtype.utf8], [[PVal.intV 1, PVal.strV "a", PVal.strV "x"]]⟩ "out" "cudf" ["grp"] false false none "/" (fun i => "f" ++ toString i)
      (fun _ _ _ => ⟨[], none⟩) = .error .UnsupportedCategoricalType :=
  ⟨by decide, to_parquet_categorical_rejected _ _ _ _ _ _ _ _ _ (by decide)⟩

/-- Witness for C8: `readFile_writeFile` at a concrete two-column table split
into row groups of sizes 3 and 1 (the repeated values of column "a" exercise
the dictionary encoding). -/
theorem readFile_writeFile_witness :
    ((∀ c ∈ ([⟨"a", Dtype.int64, [PVal.intV 1, PVal.intV 1, PVal.intV 1, PVal.intV 1]⟩, ⟨"b", Dtype.utf8, [PVal.strV "p", PVal.strV "q", PVal.strV "p", PVal.strV "q"]⟩] : PTable), (c : PColumn).cells.length = 4) ∧
      ([3, 1] : List Nat).sum = 4) ∧
    readFile (writeFile [⟨"a", Dtype.int64, [PVal.intV 1, PVal.intV 1, PVal.intV 1, PVal.intV 1]⟩, ⟨"b", Dtype.utf8, [PVal.strV "p", PVal.strV "q", PVal.strV "p", PVal.strV "q"]⟩] [3, 1]) = [⟨"a", Dtype.int64, [PVal.intV 1, PVal.intV 1, PVal.intV 1, PVal.intV 1]⟩, ⟨"b", Dtype.utf8, [PVal.strV "p", PVal.strV "q", PVal.strV "p", PVal.strV "q"]⟩] :=
  ⟨⟨by decide, by decide⟩, readFile_writeFile _ _ 4 (by decide) (by decide)⟩

/-- Witness for C9: `read_parquet_fallback_ignores_params` with the "pyarrow"
engine and two calls differing in every ignored parameter. -/
theorem read_parquet_fallback_ignores_params_witness :
    ("pyarrow" : String) ≠ "cudf" ∧
    read_parquet (fun p _ => (p, none)) (fun _ _ _ _ _ _ _ _ => ⟨[], [], []⟩)
        (fun _ _ _ _ => ()) (fun _ => ⟨[], [], []⟩) "data.parquet" "pyarrow" none
        (some 1) (some 2) (some 3) (some 4) true false [] [] =
      read_parquet (fun p _ => (p, none)) (fun _ _ _ _ _ _ _ _ => ⟨[], [], []⟩)
        (fun _ _ _ _ => ()) (fun _ => ⟨[], [], []⟩) "data.parquet" "pyarrow" none
        none none none none false true [] [] :=
  ⟨by decide, read_parquet_fallback_ignores_params (fun p _ => (p, none))
    (fun _ _ _ _ _ _ _ _ => ⟨[], [], []⟩) (fun _ _ _ _ => ()) (fun _ => ⟨[], [], []⟩)
    "data.parquet" "pyarrow" none (some 1) (some 2) (some 3) (some 4)
    none none none none true false false true [] [] (by decide)⟩

end CudfParquet
